import Mathlib

/-!
Verification of the grid-simulation core of a falling-block digging game
(`src/model.rs`).  The Rust code is shallowly embedded: the cell grid is a
function from positions to cells, imperative whole-grid loops become folds
over the explicit row-major (or bottom-up) traversal lists, and the recursive
flood fill gets an explicit fuel parameter (the Rust recursion terminates
because every recursive call happens on a cell whose `leader` was `None` and
has just been set, so the number of unlabeled cells strictly decreases; any
fuel larger than the cell count is enough, see `set_leaders`).

Machine integers (`i32`) are modeled as `Int`; the values involved stay far
from the `i32` range so wrap-around never matters.  The two float constants
`(AIR_MAX as f32 * 0.2) as i32` and `(AIR_MAX as f32 * 0.23) as i32` evaluate
to `600` and `690`; they are embedded as those integer constants.
The random number generator is only used by `Game::new` to pick the initial
block colors; the embedding takes the initial cell contents as a parameter
instead of modeling the RNG.
-/

namespace Driller

/-- `pub const UP_SPACE_HEIGHT: i32 = 6`. -/
def UP_SPACE_HEIGHT : Int := 6

/-- `pub const NORMAL_BLOCKS_HEIGHT: i32 = 100`. -/
def NORMAL_BLOCKS_HEIGHT : Int := 100

/-- `pub const CLEAR_BLOCKS_HEIGHT: i32 = 7`. -/
def CLEAR_BLOCKS_HEIGHT : Int := 7

/-- `pub const CELLS_X_LEN: i32 = 9`. -/
def CELLS_X_LEN : Int := 9

/-- `pub const CELLS_X_MIN: i32 = 0`. -/
def CELLS_X_MIN : Int := 0

/-- `pub const CELLS_X_MAX: i32 = CELLS_X_LEN - 1`. -/
def CELLS_X_MAX : Int := CELLS_X_LEN - 1

/-- `pub const CELLS_Y_LEN: i32 = UP_SPACE_HEIGHT + NORMAL_BLOCKS_HEIGHT + CLEAR_BLOCKS_HEIGHT`. -/
def CELLS_Y_LEN : Int := UP_SPACE_HEIGHT + NORMAL_BLOCKS_HEIGHT + CLEAR_BLOCKS_HEIGHT

/-- `pub const CELLS_Y_MIN: i32 = 0`. -/
def CELLS_Y_MIN : Int := 0

/-- `pub const CELLS_Y_MAX: i32 = CELLS_Y_LEN - 1`. -/
def CELLS_Y_MAX : Int := CELLS_Y_LEN - 1

/-- `pub const AIR_MAX: i32 = 3000`. -/
def AIR_MAX : Int := 3000

/-- `pub const BLOCK_LIFE_MAX: i32 = 100`. -/
def BLOCK_LIFE_MAX : Int := 100

/-- `pub const WALK_FRAMES: i32 = 3`. -/
def WALK_FRAMES : Int := 3

/-- `pub const FALL_FRAMES: i32 = 3`. -/
def FALL_FRAMES : Int := 3

/-- `pub const SHAKE_FRAMES: i32 = 43`. -/
def SHAKE_FRAMES : Int := 43

/-- `(AIR_MAX as f32 * 0.2) as i32 = 600` (air gained from an air pocket). -/
def AIR_RECOVER : Int := 600

/-- `(AIR_MAX as f32 * 0.23) as i32 = 690` (air lost when a brown block breaks). -/
def AIR_BREAK_PENALTY : Int := 690

/-- `enum Command`. -/
inductive Command where
  | None
  | Left
  | Right
  | Down
  | Up
deriving DecidableEq, Repr

/-- `enum Direction`. -/
inductive Direction where
  | Left
  | Right
  | Up
  | Down
deriving DecidableEq, Repr

/-- `Direction::all()`. -/
def Direction.all : List Direction :=
  [Direction.Left, Direction.Right, Direction.Up, Direction.Down]

/-- `Direction::from_command` (the `Command::None` case panics in Rust and is
never reached, because `Game::update` only calls it for the four directional
commands; the embedding returns a junk value there). -/
def Direction.from_command : Command → Direction
  | Command.Left => Direction.Left
  | Command.Right => Direction.Right
  | Command.Up => Direction.Up
  | Command.Down => Direction.Down
  | Command.None => Direction.Left

/-- `enum CellType`. -/
inductive CellType where
  | None
  | Air
  | Block
deriving DecidableEq, Repr

/-- `enum BlockColor`. -/
inductive BlockColor where
  | Red
  | Yellow
  | Green
  | Blue
  | Clear
  | Brown
deriving DecidableEq, Repr

/-- `struct Point` (`i32` coordinates). -/
@[ext]
structure Point where
  x : Int
  y : Int
deriving DecidableEq, Repr

/-- The bounds checked by the `assert!`s in `Point::new`: the coordinates of
every actually existing cell satisfy this. -/
def Point.inBounds (p : Point) : Prop :=
  CELLS_X_MIN ≤ p.x ∧ p.x ≤ CELLS_X_MAX ∧ CELLS_Y_MIN ≤ p.y ∧ p.y ≤ CELLS_Y_MAX

instance (p : Point) : Decidable p.inBounds := by
  unfold Point.inBounds; infer_instance

/-- Row-major scan position of a point: the order in which the nested
`for y ... for x ...` loops visit the cells. -/
def Point.scanIdx (p : Point) : Int :=
  p.y * CELLS_X_LEN + p.x

/-- `struct Cell`. -/
structure Cell where
  cell_type : CellType
  color : BlockColor
  leader : Option Point
  block_life : Int
  grounded : Bool
  shaking_frames : Int
  falling_frames : Int
  fell : Bool
deriving DecidableEq, Repr

/-- `Cell::new()`. -/
def Cell.new : Cell where
  cell_type := CellType.None
  color := BlockColor.Red
  leader := none
  block_life := BLOCK_LIFE_MAX
  grounded := false
  shaking_frames := -1
  falling_frames := -1
  fell := false

/-- The cell grid `cells: [[Cell; CELLS_X_LEN]; CELLS_Y_LEN]`, embedded as a
total function on points; only in-bounds points correspond to real cells and
all operations below only ever read or write in-bounds points. -/
def Grid : Type := Point → Cell

/-- Writing one cell of the grid (`*self.cell_mut(p) = c`). -/
def setCell (g : Grid) (p : Point) (c : Cell) : Grid :=
  fun q => if q = p then c else g q

/-- `Game::neighbor`. -/
def neighbor (p : Point) (d : Direction) : Option Point :=
  match d with
  | Direction.Left =>
      if CELLS_X_MIN ≤ p.x - 1 then some ⟨p.x - 1, p.y⟩ else none
  | Direction.Right =>
      if p.x + 1 ≤ CELLS_X_MAX then some ⟨p.x + 1, p.y⟩ else none
  | Direction.Up =>
      if CELLS_Y_MIN ≤ p.y - 1 then some ⟨p.x, p.y - 1⟩ else none
  | Direction.Down =>
      if p.y + 1 ≤ CELLS_Y_MAX then some ⟨p.x, p.y + 1⟩ else none

/-- The row-major traversal order of
`for y in CELLS_Y_MIN..=CELLS_Y_MAX { for x in CELLS_X_MIN..=CELLS_X_MAX }`. -/
def allPoints : List Point :=
  (List.range CELLS_Y_LEN.toNat).flatMap fun y =>
    (List.range CELLS_X_LEN.toNat).map fun x => ⟨Int.ofNat x, Int.ofNat y⟩

/-- The bottom-up traversal order of
`for y in (CELLS_Y_MIN..=CELLS_Y_MAX).rev() { for x in CELLS_X_MIN..=CELLS_X_MAX }`. -/
def bottomUpPoints : List Point :=
  ((List.range CELLS_Y_LEN.toNat).reverse).flatMap fun y =>
    (List.range CELLS_X_LEN.toNat).map fun x => ⟨Int.ofNat x, Int.ofNat y⟩

/-- The fields of a cell other than `leader`, bundled (used to state that the
labeling pass touches nothing but `leader`). -/
def Cell.shell (c : Cell) : CellType × BlockColor × Int × Bool × Int × Int × Bool :=
  (c.cell_type, c.color, c.block_life, c.grounded, c.shaking_frames, c.falling_frames, c.fell)


/-- The fields of a cell other than `cell_type`, bundled (used to state that
the erasing passes touch nothing but `cell_type`). -/
def Cell.sansType (c : Cell) : BlockColor × Option Point × Int × Bool × Int × Int × Bool :=
  (c.color, c.leader, c.block_life, c.grounded, c.shaking_frames, c.falling_frames, c.fell)

/-! ### Connectivity labeling (`set_leaders` / `set_leader`) -/

/-- `Game::set_leader` — the recursive same-color flood fill.  The extra
`fuel` argument is the embedding's termination device: the Rust recursion
terminates because it only ever recurses into cells whose `leader` is still
`None` after having just labeled the current cell, so the number of unlabeled
block cells strictly decreases; `set_leaders` supplies more fuel than there
are cells, which is never exhausted (`set_leaderF_spec`).  The four
directions are processed in the order of `Direction::all()`. -/
def set_leaderF : Nat → Grid → Point → Point → Grid
  | 0, g, _, _ => g
  | fuel + 1, g, p, l =>
    if (g p).cell_type = CellType.Block then
      let g0 := setCell g p { g p with leader := some l }
      let visit := fun (h : Grid) (d : Direction) =>
        match neighbor p d with
        | some n =>
            if (h n).color = (h p).color ∧ (h n).leader = none then
              set_leaderF fuel h n l
            else h
        | none => h
      visit (visit (visit (visit g0 Direction.Left) Direction.Right) Direction.Up)
        Direction.Down
    else g

/-- One direction step of the flood fill, as a named function (used to state
lemmas about `set_leaderF`; `set_leaderF_succ` relates the two). -/
def visitDir (fuel : Nat) (h : Grid) (p l : Point) (d : Direction) : Grid :=
  match neighbor p d with
  | some n =>
      if (h n).color = (h p).color ∧ (h n).leader = none then
        set_leaderF fuel h n l
      else h
  | none => h


/-- Fuel used by `set_leaders`: strictly more than the number of cells. -/
def LEADER_FUEL : Nat := 1018

/-- One step of the row-major scan of `Game::set_leaders`:
`if self.cell(p).leader == None { self.set_leader(p, p); }`. -/
def leaderScanStep (h : Grid) (p : Point) : Grid :=
  if (h p).leader = none then set_leaderF LEADER_FUEL h p p else h

/-- `Game::set_leaders` — clear every `leader`, then scan the grid in
row-major order and flood-fill from every still-unlabeled cell.  The clearing
loop's body is independent per cell, so it is embedded as a pointwise map. -/
def set_leaders (g : Grid) : Grid :=
  allPoints.foldl leaderScanStep (fun q => { g q with leader := none })



/-- `Game::get_component`. -/
def get_component (g : Grid) (p : Point) : List Point :=
  allPoints.filter fun q => (g q).leader = (g p).leader

/-! ### Support propagation (`update_grounded`) -/

/-- The body of the bottom-up loop in `Game::update_grounded`, for one point. -/
def groundStep (g : Grid) (p : Point) : Grid :=
  if (g p).grounded = false then
    let down := neighbor p Direction.Down
    let gr : Bool :=
      match down with
      | none => true
      | some d => decide ((g d).cell_type ≠ CellType.None) && (g d).grounded
    if gr then
      match (g p).cell_type with
      | CellType.None => g
      | CellType.Air => setCell g p { g p with grounded := true }
      | CellType.Block =>
          (get_component g p).foldl
            (fun h q =>
              setCell h q
                { h q with grounded := true, shaking_frames := -1, falling_frames := -1 })
            g
    else g
  else g

/-- `Game::update_grounded` — reset all `grounded` flags (a cell-local loop,
embedded as a pointwise map), then sweep the grid bottom-up marking supported
cells. -/
def update_grounded (g : Grid) : Grid :=
  bottomUpPoints.foldl groundStep (fun q => { g q with grounded := false })

/-! ### Gravity (`fall_ungrounded_blocks`) -/

/-- The body of the bottom-up loop in `Game::fall_ungrounded_blocks`, for one
point: reset `fell`, then advance the shake/fall timers of an unsupported
non-empty cell, relocating it one row down when the fall phase is complete.
The `self.neighbor(p, Direction::Down).unwrap()` in the Rust code cannot fail
on states produced by the game loop (a bottom-row cell is always grounded by
the previous support pass, or empty); the embedding makes the impossible
`none` case a no-op. -/
def fallStep (g : Grid) (p : Point) : Grid :=
  let g1 := setCell g p { g p with fell := false }
  if (g1 p).cell_type ≠ CellType.None then
    if (g1 p).grounded = false then
      if (g1 p).shaking_frames < 0 then
        setCell g1 p { g1 p with shaking_frames := 0 }
      else if (g1 p).shaking_frames ≤ SHAKE_FRAMES then
        setCell g1 p { g1 p with shaking_frames := (g1 p).shaking_frames + 1 }
      else if (g1 p).falling_frames < 0 then
        setCell g1 p { g1 p with falling_frames := 0 }
      else if (g1 p).falling_frames ≤ FALL_FRAMES then
        setCell g1 p { g1 p with falling_frames := (g1 p).falling_frames + 1 }
      else
        match neighbor p Direction.Down with
        | none => g1
        | some down =>
            let g2 := setCell g1 down (g1 p)
            let g3 := setCell g2 p { g2 p with cell_type := CellType.None }
            let g4 := setCell g3 down { g3 down with fell := true }
            match neighbor down Direction.Down with
            | some down2 =>
                if (g4 down2).cell_type = CellType.Air then
                  setCell g4 down2 { g4 down2 with cell_type := CellType.None }
                else g4
            | none => g4
    else g1
  else g1

/-- `Game::fall_ungrounded_blocks`. -/
def fall_ungrounded_blocks (g : Grid) : Grid :=
  bottomUpPoints.foldl fallStep g

/-! ### Cascade erasure (`erase_connected_blocks`) -/

/-- The body of the row-major loop in `Game::erase_connected_blocks`. -/
def eraseStep (g : Grid) (p : Point) : Grid :=
  if (g p).cell_type = CellType.Block ∧ (g p).fell = true then
    let component := get_component g p
    if 4 ≤ component.length then
      component.foldl (fun h q => setCell h q { h q with cell_type := CellType.None }) g
    else g
  else g

/-- `Game::erase_connected_blocks`. -/
def erase_connected_blocks (g : Grid) : Grid :=
  allPoints.foldl eraseStep g

/-! ### Player and game state -/

/-- `enum PlayerState`. -/
inductive PlayerState where
  | Standing
  | Walking
  | Falling
deriving DecidableEq, Repr

/-- `struct Player`. -/
structure Player where
  p : Point
  air : Int
  state : PlayerState
  direction : Direction
  walking_frames : Int
  falling_frames : Int
deriving Repr

/-- `Player::new()`. -/
def Player.new : Player where
  p := ⟨CELLS_X_LEN / 2, 5⟩
  air := AIR_MAX
  direction := Direction.Left
  walking_frames := 0
  falling_frames := 0
  state := PlayerState.Standing

/-- The fields of the player read by the player-state invariant: position,
state and walk direction. -/
def Player.pose (pl : Player) : Point × PlayerState × Direction :=
  (pl.p, pl.state, pl.direction)

/-- `struct Game` (without the RNG, which is only consumed during random
grid construction; see the module comment). -/
structure Game where
  is_debug : Bool
  is_over : Bool
  is_clear : Bool
  frame : Int
  player : Player
  requested_sounds : List String
  cells : Grid
  camera_y : Int
  depth : Int

/-- `Game::new()`, with the randomly generated initial cell contents taken
as a parameter instead of the RNG. -/
def Game.new (cells : Grid) : Game where
  is_debug := false
  is_over := false
  is_clear := false
  frame := -1
  player := Player.new
  requested_sounds := []
  cells := cells
  camera_y := 0
  depth := 0

/-- `fn clamp<T: PartialOrd>(min: T, value: T, max: T) -> T`. -/
def clamp (min value max : Int) : Int :=
  if value < min then min
  else if value > max then max
  else value

/-- `Game::dig`. The final erasing loop writes only `cell_type` and its
per-cell body reads only that cell's `leader` (compared against the leader
captured before the loop), so it is embedded as a pointwise map. -/
def dig (game : Game) (p : Point) : Game :=
  let game :=
    if (game.cells p).color = BlockColor.Clear then
      { game with
        is_clear := true
        requested_sounds := game.requested_sounds ++ ["clear.wav"] }
    else game
  let game :=
    if (game.cells p).color = BlockColor.Brown then
      { game with
        cells := setCell game.cells p
          { game.cells p with block_life := (game.cells p).block_life - 25 } }
    else
      { game with
        cells := setCell game.cells p { game.cells p with block_life := 0 } }
  if (game.cells p).block_life > 0 then game
  else
    let game :=
      if (game.cells p).color = BlockColor.Brown then
        { game with
          player := { game.player with
            air := clamp 0 (game.player.air - AIR_BREAK_PENALTY) AIR_MAX }
          requested_sounds := game.requested_sounds ++ ["break_brown.wav"] }
      else game
    let l := (game.cells p).leader
    { game with
      cells := fun q =>
        if (game.cells q).leader = l then
          { game.cells q with cell_type := CellType.None }
        else game.cells q }

/-- `Game::dig_or_walk`. -/
def dig_or_walk (game : Game) (direction : Direction) : Game :=
  match direction with
  | Direction.Left | Direction.Right =>
      if game.player.state = PlayerState.Standing then
        match neighbor game.player.p direction with
        | some p =>
            match (game.cells p).cell_type with
            | CellType.None | CellType.Air =>
                { game with
                  player := { game.player with
                    state := PlayerState.Walking
                    direction := direction
                    walking_frames := 0 } }
            | CellType.Block => dig game p
        | none => game
      else game
  | Direction.Up | Direction.Down =>
      match neighbor game.player.p direction with
      | some p =>
          match (game.cells p).cell_type with
          | CellType.Block => dig game p
          | _ => game
      | none => game

/-- The first stage of `Game::player_move`: start a fall when the cell below
the player is Empty or Air and the player is not already falling. -/
def fall_start (game : Game) : Game :=
  match neighbor game.player.p Direction.Down with
  | some down =>
      if ((game.cells down).cell_type = CellType.None ∨
            (game.cells down).cell_type = CellType.Air) ∧
          game.player.state ≠ PlayerState.Falling then
        { game with
          player := { game.player with
            state := PlayerState.Falling
            falling_frames := 0 } }
      else game
  | none => game

/-- The second stage of `Game::player_move`: advance the fall animation and
relocate the player one row down when it completes. -/
def fall_advance (game : Game) : Game :=
  if game.player.state = PlayerState.Falling then
    let game :=
      { game with
        player := { game.player with
          falling_frames := game.player.falling_frames + 1 } }
    if game.player.falling_frames ≥ FALL_FRAMES then
      { game with
        player := { game.player with
          falling_frames := 0
          p := ⟨game.player.p.x, game.player.p.y + 1⟩
          state := PlayerState.Standing }
        depth := game.depth + 1 }
    else game
  else game

/-- The third stage of `Game::player_move`: advance the walk animation and
relocate the player one column when it completes. -/
def walk_advance (game : Game) : Game :=
  if game.player.state = PlayerState.Walking then
    let game :=
      { game with
        player := { game.player with
          walking_frames := game.player.walking_frames + 1 } }
    if game.player.walking_frames ≥ WALK_FRAMES then
      if game.player.direction = Direction.Left then
        { game with
          player := { game.player with
            p := ⟨game.player.p.x - 1, game.player.p.y⟩
            state := PlayerState.Standing } }
      else
        { game with
          player := { game.player with
            p := ⟨game.player.p.x + 1, game.player.p.y⟩
            state := PlayerState.Standing } }
    else game
  else game

/-- `Game::player_move` — the three stages in order. -/
def player_move (game : Game) : Game :=
  walk_advance (fall_advance (fall_start game))

/-- The air-pocket pickup in `Game::update`: standing in an Air cell clears
it and refills the player's air. -/
def air_pickup (game : Game) : Game :=
  if (game.cells game.player.p).cell_type = CellType.Air then
    { game with
      cells := setCell game.cells game.player.p
        { game.cells game.player.p with cell_type := CellType.None }
      player := { game.player with
        air := clamp 0 (game.player.air + AIR_RECOVER) AIR_MAX }
      requested_sounds := game.requested_sounds ++ ["shrink.wav"] }
  else game

/-- The per-tick air drain in `Game::update`. -/
def air_drain (game : Game) : Game :=
  { game with player := { game.player with air := game.player.air - 1 } }

/-- The suffocation check in `Game::update`. -/
def air_over_check (game : Game) : Game :=
  if game.player.air ≤ 0 then
    { game with
      is_over := true
      requested_sounds := game.requested_sounds ++ ["crash.wav"] }
  else game

/-- The crush check in `Game::update`: a Block cell at the player's position
ends the game. -/
def squish_check (game : Game) : Game :=
  if (game.cells game.player.p).cell_type = CellType.Block then
    { game with
      is_over := true
      requested_sounds := game.requested_sounds ++ ["crash.wav"] }
  else game

/-- The tail of `Game::update` after the mid-tick clear check: support pass,
air pickup, air drain, the two game-over checks and the camera move. -/
def update_tail (game : Game) : Game :=
  let game := { game with cells := update_grounded game.cells }
  let game := air_pickup game
  let game := air_drain game
  let game := air_over_check game
  let game := squish_check game
  { game with camera_y := game.player.p.y - 5 }

/-- The command resolution step of `Game::update` plus the mid-tick clear
check and the tail. -/
def update_cmd (game : Game) (command : Command) : Game :=
  let game :=
    match command with
    | Command.Left | Command.Right | Command.Up | Command.Down =>
        dig_or_walk game (Direction.from_command command)
    | Command.None => game
  if game.is_clear ∧ command ≠ Command.None then game
  else update_tail game

/-- The body of `Game::update` after the early return: movement, gravity,
re-label, cascade erase, then command resolution and the tail. -/
def update_mid (game : Game) (command : Command) : Game :=
  let game := player_move game
  let game := { game with cells := fall_ungrounded_blocks game.cells }
  let game := { game with cells := set_leaders game.cells }
  let game := { game with cells := erase_connected_blocks game.cells }
  update_cmd game command

/-- `Game::update` — the per-tick orchestration. -/
def update (game : Game) (command : Command) : Game :=
  let game := { game with frame := game.frame + 1 }
  if game.is_over ∨ game.is_clear then game
  else update_mid game command

/-- The reachable game states: some initial state (arbitrary generated cell
contents) followed by any sequence of `update` calls. -/
inductive Reachable : Game → Prop where
  | init (cells : Grid) : Reachable (Game.new cells)
  | step (game : Game) (command : Command) :
      Reachable game → Reachable (update game command)

/-! ### Specification-side notions used in the theorem statements -/

/-- One step between same-colored blocks: `q` is a 4-neighbor of `p`, is a
`Block`, and has the same color as `p`. -/
def sameColorStep (g : Grid) (p q : Point) : Prop :=
  (∃ d, neighbor p d = some q) ∧ (g q).color = (g p).color ∧
    (g q).cell_type = CellType.Block

/-- `p` and `q` are Block cells connected by a path of orthogonally adjacent
Block cells of the same color (the spec's notion of a connected component). -/
def SameComp (g : Grid) (p q : Point) : Prop :=
  (g p).cell_type = CellType.Block ∧ Relation.ReflTransGen (sameColorStep g) p q

/-- One step of the flood fill frontier: a `sameColorStep` into a cell that
is still unlabeled. -/
def ustep (g : Grid) (p q : Point) : Prop :=
  sameColorStep g p q ∧ (g q).leader = none

/-- Number of unlabeled block cells; the measure showing the Rust flood-fill
recursion terminates (and that `LEADER_FUEL` is never exhausted). -/
def unlabeledCount (g : Grid) : Nat :=
  (allPoints.filter fun q =>
    (g q).leader = none ∧ (g q).cell_type = CellType.Block).length

/-- The invariant of the labeling scan (`g0` = the grid with all leaders
cleared, `h` = current grid, `done` = already scanned points): fields other
than `leader` are untouched; every label `some r` sits on a block cell, `r`
labels itself, `r` is in the same component, and `r` is the scan-order
minimum of that component; labels are constant on components; and every
already-scanned block cell is labeled. -/
def LeadersGood (g0 h : Grid) (done : List Point) : Prop :=
  (∀ q, (h q).shell = (g0 q).shell) ∧
  (∀ q r, (h q).leader = some r → r.inBounds ∧
    (g0 q).cell_type = CellType.Block ∧ (h r).leader = some r ∧
    SameComp g0 r q ∧
    (∀ m, m.inBounds → SameComp g0 m q → r.scanIdx ≤ m.scanIdx)) ∧
  (∀ q q', q.inBounds → SameComp g0 q q' → (h q).leader = (h q').leader) ∧
  (∀ q, q ∈ done → (g0 q).cell_type = CellType.Block → (h q).leader ≠ none)

/-- Number of non-Empty cells of the grid (the quantity the gravity pass
never increases). -/
def nonEmptyCount (g : Grid) : Nat :=
  (allPoints.filter fun p => (g p).cell_type ≠ CellType.None).length

/-- The fields of a cell untouched by the support pass (`update_grounded`
writes only `grounded`, `shaking_frames` and `falling_frames`). -/
def Cell.static (c : Cell) : CellType × BlockColor × Option Point × Int × Bool :=
  (c.cell_type, c.color, c.leader, c.block_life, c.fell)

/-- The support condition read by `update_grounded` for a cell: the loop's
`down == None || (cell(down).cell_type != None && cell(down).grounded)`. -/
def downSupport (g : Grid) (t : Point) : Prop :=
  neighbor t Direction.Down = none ∨
  ∃ d, neighbor t Direction.Down = some d ∧
    (g d).cell_type ≠ CellType.None ∧ (g d).grounded = true

/-- The player-state invariant maintained by the game loop: the player is in
bounds, a walk in progress heads for an in-bounds column, and a fall in
progress heads for an in-bounds row. -/
def PlayerOK (pl : Player) : Prop :=
  pl.p.inBounds ∧
  (pl.state = PlayerState.Walking →
    (pl.direction = Direction.Left ∧ CELLS_X_MIN ≤ pl.p.x - 1) ∨
    (pl.direction = Direction.Right ∧ pl.p.x + 1 ≤ CELLS_X_MAX)) ∧
  (pl.state = PlayerState.Falling → pl.p.y + 1 ≤ CELLS_Y_MAX)

/-! ### Concrete grids and games used by witnesses and counterexamples -/

/-- A block cell of the given color with all other fields as in `Cell::new`. -/
def blockCell (c : BlockColor) : Cell :=
  { Cell.new with cell_type := CellType.Block, color := c }

/-- Witness grid for the labeling claim: two adjacent red blocks at the top
left corner, everything else empty. -/
def w1grid : Grid := fun p =>
  if p = ⟨0, 0⟩ then blockCell BlockColor.Red
  else if p = ⟨1, 0⟩ then blockCell BlockColor.Red
  else Cell.new

/-- Witness grid for the cascade-erase claim: one red block that just fell. -/
def w2grid : Grid := fun p =>
  if p = ⟨0, 0⟩ then { blockCell BlockColor.Red with fell := true }
  else Cell.new

/-- Witness grid for the gravity claim: an unsupported red block at the top
left corner that has finished both its shake and fall phases, with an air
pocket two rows below. -/
def w3grid : Grid := fun p =>
  if p = ⟨0, 0⟩ then
    { blockCell BlockColor.Red with shaking_frames := 44, falling_frames := 4 }
  else if p = ⟨0, 2⟩ then { Cell.new with cell_type := CellType.Air }
  else Cell.new

/-- Grid for the dig-Clear counterexample: two adjacent Clear blocks on the
floor row. -/
def w4grid : Grid := fun p =>
  if p = ⟨0, 112⟩ then blockCell BlockColor.Clear
  else if p = ⟨1, 112⟩ then blockCell BlockColor.Clear
  else Cell.new

/-- Game for the input-gating counterexample: the player is mid-fall at the
initial position `(4, 5)` and a red block sits directly above at `(4, 4)`. -/
def w5game : Game :=
  { Game.new (fun p =>
      if p = ⟨4, 4⟩ then { blockCell BlockColor.Red with leader := some ⟨4, 4⟩ }
      else Cell.new) with
    player := { Player.new with state := PlayerState.Falling } }

/-- Grid for the support-pass timer counterexample: a single Air cell on the
floor row whose shake timer is still running, with its `grounded` flag given
by the parameter (`w6g false` is the input of the pass, `w6g true` its
output). -/
def w6g (gr : Bool) : Grid := fun p =>
  if p = ⟨0, 112⟩ then
    { Cell.new with cell_type := CellType.Air, shaking_frames := 5, grounded := gr }
  else Cell.new

/-- A cell of the support-order counterexample grid: a block with its label
and a `grounded` flag. -/
def w7cell (c : BlockColor) (l : Point) (gr : Bool) : Cell :=
  { Cell.new with
    cell_type := CellType.Block
    color := c
    leader := some l
    grounded := gr }

/-- The support-order counterexample grid, with the green component
(`(2,111)-(2,112)`) and the blue component
(`(1,110)-(2,110)-(1,111)-(0,111)`) marked supported according to the two
flags.  The labels are exactly the ones `set_leaders` assigns (the row-major
first cell of each component).  A red block sits at `(0,110)`, directly above
the blue cell `(0,111)`. -/
def w7g (green blue : Bool) : Grid := fun p =>
  if p = ⟨0, 110⟩ then w7cell BlockColor.Red ⟨0, 110⟩ false
  else if p = ⟨1, 110⟩ then w7cell BlockColor.Blue ⟨1, 110⟩ blue
  else if p = ⟨2, 110⟩ then w7cell BlockColor.Blue ⟨1, 110⟩ blue
  else if p = ⟨0, 111⟩ then w7cell BlockColor.Blue ⟨1, 110⟩ blue
  else if p = ⟨1, 111⟩ then w7cell BlockColor.Blue ⟨1, 110⟩ blue
  else if p = ⟨2, 111⟩ then w7cell BlockColor.Green ⟨2, 111⟩ green
  else if p = ⟨2, 112⟩ then w7cell BlockColor.Green ⟨2, 111⟩ green
  else Cell.new

/-- Witness grid for the amended timer claim: one red block on the floor row
with stale shake/fall timers (`w8g false` is the input of the support pass,
`w8g true` its output: supported, timers reset to -1). -/
def w8g (gr : Bool) : Grid := fun p =>
  if p = ⟨0, 112⟩ then
    { blockCell BlockColor.Red with
      leader := some ⟨0, 112⟩
      grounded := gr
      shaking_frames := if gr then -1 else 7
      falling_frames := if gr then -1 else 2 }
  else Cell.new

/-- Witness game for the Brown-durability chain: a single Brown block at the
top-left corner with full durability. -/
def w9game : Game := Game.new (fun q =>
  if q = ⟨0, 0⟩ then blockCell BlockColor.Brown else Cell.new)

/-! ## Lemmas -/

section BasicLemmas

theorem setCell_same (g : Grid) (p : Point) (c : Cell) : setCell g p c p = c := by
  simp [setCell]

theorem setCell_other (g : Grid) (p q : Point) (c : Cell) (h : q ≠ p) :
    setCell g p c q = g q := by
  simp [setCell, h]

/-- All bound constants as plain numerals, for arithmetic automation. -/
theorem bounds_eq : CELLS_X_MIN = 0 ∧ CELLS_X_MAX = 8 ∧ CELLS_Y_MIN = 0 ∧
    CELLS_Y_MAX = 112 ∧ CELLS_X_LEN = 9 ∧ CELLS_Y_LEN = 113 := by
  refine ⟨rfl, by norm_num [CELLS_X_MAX, CELLS_X_LEN], rfl, ?_, rfl, ?_⟩ <;>
    norm_num [CELLS_Y_MAX, CELLS_Y_LEN, UP_SPACE_HEIGHT, NORMAL_BLOCKS_HEIGHT,
      CLEAR_BLOCKS_HEIGHT]

theorem inBounds_iff {p : Point} :
    p.inBounds ↔ 0 ≤ p.x ∧ p.x ≤ 8 ∧ 0 ≤ p.y ∧ p.y ≤ 112 := by
  obtain ⟨e1, e2, e3, e4, _, _⟩ := bounds_eq
  rw [Point.inBounds, e1, e2, e3, e4]

theorem mem_allPoints {p : Point} : p ∈ allPoints ↔ p.inBounds := by
  have hx : CELLS_X_LEN.toNat = 9 := rfl
  have hy : CELLS_Y_LEN.toNat = 113 := rfl
  rw [inBounds_iff]
  constructor
  · intro h
    simp only [allPoints, hx, hy, List.mem_flatMap, List.mem_map, List.mem_range] at h
    obtain ⟨y, hy', x, hx', rfl⟩ := h
    simp only [Int.ofNat_eq_coe]
    omega
  · rintro ⟨h1, h2, h3, h4⟩
    simp only [allPoints, hx, hy, List.mem_flatMap, List.mem_map, List.mem_range]
    refine ⟨p.y.toNat, by omega, p.x.toNat, by omega, ?_⟩
    cases p with
    | mk x y =>
      simp only [Point.mk.injEq, Int.ofNat_eq_coe]
      dsimp only at h1 h2 h3 h4
      omega

theorem mem_bottomUpPoints {p : Point} : p ∈ bottomUpPoints ↔ p.inBounds := by
  rw [← mem_allPoints]
  simp [allPoints, bottomUpPoints]

/-- Neighbors of in-bounds points are in bounds. -/
theorem neighbor_inBounds {p q : Point} {d : Direction} (hp : p.inBounds)
    (h : neighbor p d = some q) : q.inBounds := by
  rw [inBounds_iff] at hp ⊢
  obtain ⟨e1, e2, e3, e4, _, _⟩ := bounds_eq
  cases d <;> simp only [neighbor, e1, e2, e3, e4] at h <;> split at h <;>
    simp_all <;> (obtain ⟨rfl, rfl⟩ := h.symm) <;> dsimp only <;> omega

/-- Explicit description of the downward neighbor. -/
theorem neighbor_down_eq {p q : Point} (h : neighbor p Direction.Down = some q) :
    q = ⟨p.x, p.y + 1⟩ ∧ p.y + 1 ≤ CELLS_Y_MAX := by
  simp only [neighbor] at h
  split at h <;> simp_all

/-- A neighbor in some direction is always a distinct point. -/
theorem neighbor_ne {p q : Point} {d : Direction} (h : neighbor p d = some q) :
    q ≠ p := by
  cases d <;> simp only [neighbor] at h <;> split at h <;> simp_all <;>
    (obtain ⟨rfl, rfl⟩ := h.symm) <;> intro hc <;>
    rw [Point.ext_iff] at hc <;> simp at hc <;> omega

/-- Adjacency is symmetric between in-bounds points. -/
theorem neighbor_symm {p q : Point} {d : Direction} (hp : p.inBounds) (hq : q.inBounds)
    (h : neighbor p d = some q) : ∃ d', neighbor q d' = some p := by
  rw [inBounds_iff] at hp hq
  obtain ⟨hp1, hp2, hp3, hp4⟩ := hp
  obtain ⟨hq1, hq2, hq3, hq4⟩ := hq
  obtain ⟨e1, e2, e3, e4, _, _⟩ := bounds_eq
  cases d
  case Left =>
    refine ⟨Direction.Right, ?_⟩
    simp only [neighbor, e1, e2] at h ⊢
    split at h <;> simp_all
    obtain ⟨rfl, rfl⟩ := h.symm
    dsimp only
    constructor
    · omega
    · ext <;> dsimp only <;> omega
  case Right =>
    refine ⟨Direction.Left, ?_⟩
    simp only [neighbor, e1, e2] at h ⊢
    split at h <;> simp_all
    obtain ⟨rfl, rfl⟩ := h.symm
    dsimp only
    constructor
    · omega
    · ext <;> dsimp only <;> omega
  case Up =>
    refine ⟨Direction.Down, ?_⟩
    simp only [neighbor, e3, e4] at h ⊢
    split at h <;> simp_all
    obtain ⟨rfl, rfl⟩ := h.symm
    dsimp only
    constructor
    · omega
    · ext <;> dsimp only <;> omega
  case Down =>
    refine ⟨Direction.Up, ?_⟩
    simp only [neighbor, e3, e4] at h ⊢
    split at h <;> simp_all
    obtain ⟨rfl, rfl⟩ := h.symm
    dsimp only
    constructor
    · omega
    · ext <;> dsimp only <;> omega

end BasicLemmas

section ScanOrder

theorem scanIdx_lt_of_rows {x y x' y' : Nat} (hx : x < 9) (hyy : y < y') :
    Point.scanIdx ⟨Int.ofNat x, Int.ofNat y⟩ < Point.scanIdx ⟨Int.ofNat x', Int.ofNat y'⟩ := by
  obtain ⟨_, _, _, _, e5, _⟩ := bounds_eq
  simp only [Point.scanIdx, e5, Int.ofNat_eq_coe]
  omega

theorem allPoints_pairwise :
    allPoints.Pairwise (fun a b => a.scanIdx < b.scanIdx) := by
  unfold allPoints
  rw [List.pairwise_flatMap]
  constructor
  · intro y _
    rw [List.pairwise_map]
    refine (List.pairwise_lt_range _).imp ?_
    intro x x' hxx
    obtain ⟨_, _, _, _, e5, _⟩ := bounds_eq
    simp only [Point.scanIdx, e5, Int.ofNat_eq_coe]
    omega
  · refine (List.pairwise_lt_range _).imp ?_
    intro y y' hyy a ha b hb
    simp only [List.mem_map, List.mem_range] at ha hb
    obtain ⟨x, hx, rfl⟩ := ha
    obtain ⟨x', _, rfl⟩ := hb
    exact scanIdx_lt_of_rows hx hyy

theorem allPoints_nodup : allPoints.Nodup :=
  allPoints_pairwise.imp fun h => by
    intro he
    rw [he] at h
    omega

/-- If `allPoints` splits as `l1 ++ p :: l2` then every point strictly
earlier in scan order than `p` lies in `l1`. -/
theorem mem_left_of_scanIdx_lt {l1 l2 : List Point} {p m : Point}
    (hsplit : allPoints = l1 ++ p :: l2) (hm : m ∈ allPoints)
    (hlt : m.scanIdx < p.scanIdx) : m ∈ l1 := by
  have hpw := allPoints_pairwise
  rw [hsplit] at hpw hm
  rcases List.mem_append.1 hm with h | h
  · exact h
  · exfalso
    rcases List.mem_cons.1 h with rfl | h
    · omega
    · have := (List.pairwise_append.1 hpw).2.1
      have hlt2 := (List.pairwise_cons.1 this).1 m h
      omega

end ScanOrder

theorem Cell.shell_type {c c' : Cell} (h : c.shell = c'.shell) :
    c.cell_type = c'.cell_type := congrArg Prod.fst h

theorem Cell.shell_color {c c' : Cell} (h : c.shell = c'.shell) :
    c.color = c'.color := congrArg (fun s => s.2.1) h

theorem Cell.eq_of_shell_leader {c c' : Cell} (h : c.shell = c'.shell)
    (hl : c.leader = c'.leader) : c = c' := by
  cases c
  cases c'
  simp only [Cell.shell, Prod.mk.injEq] at h
  obtain ⟨h1, h2, h3, h4, h5, h6, h7⟩ := h
  simp_all

theorem set_leaderF_zero (g : Grid) (p l : Point) : set_leaderF 0 g p l = g := rfl

theorem set_leaderF_succ (fuel : Nat) (g : Grid) (p l : Point) :
    set_leaderF (fuel + 1) g p l =
      if (g p).cell_type = CellType.Block then
        visitDir fuel
          (visitDir fuel
            (visitDir fuel
              (visitDir fuel (setCell g p { g p with leader := some l }) p l
                Direction.Left) p l Direction.Right) p l Direction.Up) p l
          Direction.Down
      else g := rfl


/-! ### Flood-fill frame lemmas -/

theorem set_leaderF_not_block {fuel : Nat} {g : Grid} {p l : Point}
    (h : ¬ (g p).cell_type = CellType.Block) : set_leaderF fuel g p l = g := by
  cases fuel with
  | zero => rfl
  | succ fuel => rw [set_leaderF_succ, if_neg h]

/-- The flood fill never touches any field but `leader`. -/
theorem visitDir_shell (fuel : Nat)
    (ih : ∀ (g : Grid) (p l q : Point), ((set_leaderF fuel g p l) q).shell = (g q).shell)
    (h : Grid) (p l : Point) (d : Direction) (q : Point) :
    ((visitDir fuel h p l d) q).shell = (h q).shell := by
  unfold visitDir
  cases hn : neighbor p d with
  | none => rfl
  | some n =>
    dsimp only
    split
    · exact ih h n l q
    · rfl

theorem set_leaderF_shell : ∀ (fuel : Nat) (g : Grid) (p l q : Point),
    ((set_leaderF fuel g p l) q).shell = (g q).shell := by
  intro fuel
  induction fuel with
  | zero => intro g p l q; rfl
  | succ fuel ih =>
    intro g p l q
    rw [set_leaderF_succ]
    split
    · have hv := visitDir_shell fuel ih
      rw [hv, hv, hv, hv]
      by_cases hq : q = p
      · subst hq; rw [setCell_same]; rfl
      · rw [setCell_other _ _ _ _ hq]
    · rfl

theorem set_leaderF_type (fuel : Nat) (g : Grid) (p l q : Point) :
    ((set_leaderF fuel g p l) q).cell_type = (g q).cell_type :=
  Cell.shell_type (set_leaderF_shell fuel g p l q)

theorem set_leaderF_color (fuel : Nat) (g : Grid) (p l q : Point) :
    ((set_leaderF fuel g p l) q).color = (g q).color :=
  Cell.shell_color (set_leaderF_shell fuel g p l q)

/-- Composing two "labels only get added, with value `some l`" passes. -/
theorem leader_change_compose {gA gB gC : Grid} {l : Point}
    (h1 : ∀ q, (gB q).leader = (gA q).leader ∨
      ((gA q).leader = none ∧ (gB q).leader = some l ∧
        (gA q).cell_type = CellType.Block))
    (h2 : ∀ q, (gC q).leader = (gB q).leader ∨
      ((gB q).leader = none ∧ (gC q).leader = some l ∧
        (gB q).cell_type = CellType.Block))
    (ht : ∀ q, (gB q).cell_type = (gA q).cell_type) :
    ∀ q, (gC q).leader = (gA q).leader ∨
      ((gA q).leader = none ∧ (gC q).leader = some l ∧
        (gA q).cell_type = CellType.Block) := by
  intro q
  rcases h2 q with h2q | ⟨hB, hC, hBt⟩
  · rcases h1 q with h1q | ⟨hA, hB2, hAt⟩
    · exact Or.inl (h2q.trans h1q)
    · exact Or.inr ⟨hA, h2q.trans hB2, hAt⟩
  · rcases h1 q with h1q | ⟨hA, hB2, hAt⟩
    · refine Or.inr ⟨?_, hC, ?_⟩
      · rw [← h1q]; exact hB
      · rw [← ht q]; exact hBt
    · rw [hB2] at hB; cases hB

/-- Where the flood fill writes: it only turns `none` leaders of block cells
into `some l`. -/
theorem visitDir_leader (fuel : Nat)
    (ih : ∀ (g : Grid) (p l : Point), (g p).leader = none → ∀ q,
        ((set_leaderF fuel g p l) q).leader = (g q).leader ∨
        ((g q).leader = none ∧ ((set_leaderF fuel g p l) q).leader = some l ∧
          (g q).cell_type = CellType.Block))
    (h : Grid) (p l : Point) (d : Direction) (q : Point) :
    ((visitDir fuel h p l d) q).leader = (h q).leader ∨
      ((h q).leader = none ∧ ((visitDir fuel h p l d) q).leader = some l ∧
        (h q).cell_type = CellType.Block) := by
  unfold visitDir
  cases hn : neighbor p d with
  | none => exact Or.inl rfl
  | some n =>
    dsimp only
    split
    case isTrue hc => exact ih h n l hc.2 q
    case isFalse => exact Or.inl rfl

theorem set_leaderF_leader : ∀ (fuel : Nat) (g : Grid) (p l : Point),
    (g p).leader = none → ∀ q,
    ((set_leaderF fuel g p l) q).leader = (g q).leader ∨
      ((g q).leader = none ∧ ((set_leaderF fuel g p l) q).leader = some l ∧
        (g q).cell_type = CellType.Block) := by
  intro fuel
  induction fuel with
  | zero => intro g p l _ q; exact Or.inl rfl
  | succ fuel ih =>
    intro g p l hnone q
    rw [set_leaderF_succ]
    split
    case isFalse => exact Or.inl rfl
    case isTrue hb =>
      have hvl := visitDir_leader fuel ih
      have hvs := visitDir_shell fuel (set_leaderF_shell fuel)
      have base : ∀ q, ((setCell g p { g p with leader := some l }) q).leader =
          (g q).leader ∨ ((g q).leader = none ∧
            ((setCell g p { g p with leader := some l }) q).leader = some l ∧
            (g q).cell_type = CellType.Block) := by
        intro q
        by_cases hq : q = p
        · subst hq
          rw [setCell_same]
          exact Or.inr ⟨hnone, rfl, hb⟩
        · rw [setCell_other _ _ _ _ hq]
          exact Or.inl rfl
      have tbase : ∀ q, ((setCell g p { g p with leader := some l }) q).cell_type =
          (g q).cell_type := by
        intro q
        by_cases hq : q = p
        · subst hq; rw [setCell_same]
        · rw [setCell_other _ _ _ _ hq]
      have s1 := leader_change_compose base (fun q => hvl _ p l Direction.Left q) tbase
      have t1 : ∀ q, ((visitDir fuel (setCell g p { g p with leader := some l }) p l
          Direction.Left) q).cell_type = (g q).cell_type := by
        intro q
        rw [Cell.shell_type (hvs _ p l Direction.Left q)]
        exact tbase q
      have s2 := leader_change_compose s1 (fun q => hvl _ p l Direction.Right q) t1
      have t2 : ∀ q, ((visitDir fuel (visitDir fuel
          (setCell g p { g p with leader := some l }) p l Direction.Left) p l
          Direction.Right) q).cell_type = (g q).cell_type := by
        intro q
        rw [Cell.shell_type (hvs _ p l Direction.Right q)]
        exact t1 q
      have s3 := leader_change_compose s2 (fun q => hvl _ p l Direction.Up q) t2
      have t3 : ∀ q, ((visitDir fuel (visitDir fuel (visitDir fuel
          (setCell g p { g p with leader := some l }) p l Direction.Left) p l
          Direction.Right) p l Direction.Up) q).cell_type = (g q).cell_type := by
        intro q
        rw [Cell.shell_type (hvs _ p l Direction.Up q)]
        exact t2 q
      have s4 := leader_change_compose s3 (fun q => hvl _ p l Direction.Down q) t3
      exact s4 q

theorem set_leaderF_mono {fuel : Nat} {g : Grid} {p l : Point}
    (hnone : (g p).leader = none) {q r : Point} (h : (g q).leader = some r) :
    ((set_leaderF fuel g p l) q).leader = some r := by
  rcases set_leaderF_leader fuel g p l hnone q with he | hn
  · rw [he, h]
  · rw [h] at hn; cases hn.1

theorem visitDir_mono {fuel : Nat} {h : Grid} {p l : Point} {d : Direction} {q r : Point}
    (hq : (h q).leader = some r) :
    ((visitDir fuel h p l d) q).leader = some r := by
  unfold visitDir
  cases hn : neighbor p d with
  | none => exact hq
  | some n =>
    dsimp only
    split
    case isTrue hc => exact set_leaderF_mono hc.2 hq
    case isFalse => exact hq

/-- After the flood fill runs on a block cell, that cell carries the label. -/
theorem set_leaderF_marks {fuel : Nat} {g : Grid} {p l : Point}
    (hb : (g p).cell_type = CellType.Block) (hnone : (g p).leader = none) :
    ((set_leaderF (fuel + 1) g p l) p).leader = some l := by
  rw [set_leaderF_succ, if_pos hb]
  have h0 : ((setCell g p { g p with leader := some l }) p).leader = some l := by
    rw [setCell_same]
  exact visitDir_mono (visitDir_mono (visitDir_mono (visitDir_mono h0)))

/-! ### Flood-fill soundness: new labels only reach flood-connected cells -/

theorem none_back_visit {fuel : Nat} {h : Grid} {p l : Point} {d : Direction} {r : Point}
    (hn : ((visitDir fuel h p l d) r).leader = none) : (h r).leader = none := by
  cases hx : (h r).leader with
  | none => rfl
  | some s => rw [visitDir_mono hx] at hn; cases hn

theorem upath_transfer {gA gB : Grid}
    (hshell : ∀ r, (gB r).shell = (gA r).shell)
    (hmono : ∀ r, (gB r).leader = none → (gA r).leader = none) :
    ∀ a b, Relation.ReflTransGen (ustep gB) a b →
      Relation.ReflTransGen (ustep gA) a b := by
  intro a b
  refine Relation.ReflTransGen.mono ?_
  rintro x y ⟨⟨hd, hcol, hblk⟩, hnone⟩
  refine ⟨⟨hd, ?_, ?_⟩, hmono y hnone⟩
  · rw [← Cell.shell_color (hshell y), ← Cell.shell_color (hshell x)]
    exact hcol
  · rw [← Cell.shell_type (hshell y)]
    exact hblk

theorem visitDir_sound (fuel : Nat)
    (ih : ∀ (g : Grid) (p l : Point), (g p).leader = none → ∀ q,
        ((set_leaderF fuel g p l) q).leader ≠ (g q).leader →
        Relation.ReflTransGen (ustep g) p q) :
    ∀ (h : Grid) (p l : Point) (d : Direction) (q : Point),
      ((visitDir fuel h p l d) q).leader ≠ (h q).leader →
      Relation.ReflTransGen (ustep h) p q := by
  intro h p l d q hch
  unfold visitDir at hch
  cases hn : neighbor p d with
  | none => rw [hn] at hch; exact absurd rfl hch
  | some n =>
    rw [hn] at hch
    dsimp only at hch
    by_cases hc : (h n).color = (h p).color ∧ (h n).leader = none
    · rw [if_pos hc] at hch
      by_cases hbn : (h n).cell_type = CellType.Block
      · exact Relation.ReflTransGen.head ⟨⟨⟨d, hn⟩, hc.1, hbn⟩, hc.2⟩
          (ih h n l hc.2 q hch)
      · rw [set_leaderF_not_block hbn] at hch
        exact absurd rfl hch
    · rw [if_neg hc] at hch
      exact absurd rfl hch

theorem set_leaderF_sound : ∀ (fuel : Nat) (g : Grid) (p l : Point),
    (g p).leader = none → ∀ q,
    ((set_leaderF fuel g p l) q).leader ≠ (g q).leader →
    Relation.ReflTransGen (ustep g) p q := by
  intro fuel
  induction fuel with
  | zero => intro g p l _ q hch; exact absurd rfl hch
  | succ fuel ih =>
    intro g p l hnone q hch
    rw [set_leaderF_succ] at hch
    by_cases hb : (g p).cell_type = CellType.Block
    case neg => rw [if_neg hb] at hch; exact absurd rfl hch
    rw [if_pos hb] at hch
    set g0 := setCell g p { g p with leader := some l } with hg0
    set h1 := visitDir fuel g0 p l Direction.Left with hh1
    set h2 := visitDir fuel h1 p l Direction.Right with hh2
    set h3 := visitDir fuel h2 p l Direction.Up with hh3
    have hs := set_leaderF_shell fuel
    have vshell := visitDir_shell fuel hs
    have shell0 : ∀ r, (g0 r).shell = (g r).shell := by
      intro r
      by_cases hr : r = p
      · subst hr; rw [hg0, setCell_same]; rfl
      · rw [hg0, setCell_other _ _ _ _ hr]
    have shell1 : ∀ r, (h1 r).shell = (g r).shell := fun r =>
      (vshell g0 p l Direction.Left r).trans (shell0 r)
    have shell2 : ∀ r, (h2 r).shell = (g r).shell := fun r =>
      (vshell h1 p l Direction.Right r).trans (shell1 r)
    have shell3 : ∀ r, (h3 r).shell = (g r).shell := fun r =>
      (vshell h2 p l Direction.Up r).trans (shell2 r)
    have mono0 : ∀ r, (g0 r).leader = none → (g r).leader = none := by
      intro r h0
      by_cases hr : r = p
      · subst hr; exact hnone
      · rw [hg0, setCell_other _ _ _ _ hr] at h0; exact h0
    have mono1 : ∀ r, (h1 r).leader = none → (g r).leader = none := fun r h =>
      mono0 r (none_back_visit h)
    have mono2 : ∀ r, (h2 r).leader = none → (g r).leader = none := fun r h =>
      mono1 r (none_back_visit h)
    have mono3 : ∀ r, (h3 r).leader = none → (g r).leader = none := fun r h =>
      mono2 r (none_back_visit h)
    by_cases c0 : (g0 q).leader = (g q).leader
    · by_cases c1 : (h1 q).leader = (g0 q).leader
      · by_cases c2 : (h2 q).leader = (h1 q).leader
        · by_cases c3 : (h3 q).leader = (h2 q).leader
          · have hch4 : ((visitDir fuel h3 p l Direction.Down) q).leader ≠
                (h3 q).leader := by
              rw [c3, c2, c1, c0]; exact hch
            exact upath_transfer shell3 mono3 p q
              (visitDir_sound fuel ih h3 p l Direction.Down q hch4)
          · exact upath_transfer shell2 mono2 p q
              (visitDir_sound fuel ih h2 p l Direction.Up q c3)
        · exact upath_transfer shell1 mono1 p q
            (visitDir_sound fuel ih h1 p l Direction.Right q c2)
      · exact upath_transfer shell0 mono0 p q
          (visitDir_sound fuel ih g0 p l Direction.Left q c1)
    · have hqp : q = p := by
        by_contra hqp
        rw [hg0, setCell_other _ _ _ _ hqp] at c0
        exact c0 rfl
      subst hqp
      exact Relation.ReflTransGen.refl

/-! ### The unlabeled-cell count (termination measure of the flood fill) -/

theorem length_filter_le_of_imp {α : Type} {l : List α} {P Q : α → Prop}
    [DecidablePred P] [DecidablePred Q]
    (h : ∀ x ∈ l, Q x → P x) :
    (l.filter fun x => decide (Q x)).length ≤ (l.filter fun x => decide (P x)).length := by
  induction l with
  | nil => simp
  | cons b t ihl =>
    have ht : ∀ x ∈ t, Q x → P x := fun x hx => h x (List.mem_cons_of_mem b hx)
    rw [List.filter_cons, List.filter_cons]
    by_cases hQ : Q b
    · rw [if_pos (by simpa using hQ), if_pos (by simpa using h b (List.mem_cons_self b t) hQ)]
      simpa using ihl ht
    · rw [if_neg (by simpa using hQ)]
      split
      · exact le_trans (ihl ht) (by simp)
      · exact ihl ht

theorem length_filter_lt_of_flip {α : Type} {l : List α} {P Q : α → Prop}
    [DecidablePred P] [DecidablePred Q] {a : α}
    (ha : a ∈ l) (hnd : l.Nodup) (hPa : P a) (hQa : ¬ Q a)
    (himp : ∀ x ∈ l, Q x → P x) :
    (l.filter fun x => decide (Q x)).length < (l.filter fun x => decide (P x)).length := by
  induction l with
  | nil => cases ha
  | cons b t ihl =>
    have hnd' : t.Nodup := (List.nodup_cons.1 hnd).2
    have ht : ∀ x ∈ t, Q x → P x := fun x hx => himp x (List.mem_cons_of_mem b hx)
    rcases List.mem_cons.1 ha with rfl | hat
    · rw [List.filter_cons, List.filter_cons]
      have e1 : ¬ (decide (Q a) = true) := by simpa using hQa
      have e2 : decide (P a) = true := by simpa using hPa
      rw [if_neg e1, if_pos e2]
      simp only [List.length_cons]
      exact Nat.lt_succ_of_le (length_filter_le_of_imp ht)
    · rw [List.filter_cons, List.filter_cons]
      by_cases hQ : Q b
      · rw [if_pos (by simpa using hQ),
          if_pos (by simpa using himp b (List.mem_cons_self b t) hQ)]
        simpa using ihl hat hnd' ht
      · rw [if_neg (by simpa using hQ)]
        split
        · exact Nat.lt_succ_of_le (le_of_lt (ihl hat hnd' ht))
        · exact ihl hat hnd' ht

theorem unlabeledCount_le {g h : Grid}
    (htype : ∀ q, (h q).cell_type = (g q).cell_type)
    (hmono : ∀ q, (h q).leader = none → (g q).leader = none) :
    unlabeledCount h ≤ unlabeledCount g := by
  unfold unlabeledCount
  exact length_filter_le_of_imp fun x _ hx => ⟨hmono x hx.1, (htype x) ▸ hx.2⟩

theorem unlabeledCount_set_lt {g : Grid} {p l : Point}
    (hp : p ∈ allPoints) (hb : (g p).cell_type = CellType.Block)
    (hnone : (g p).leader = none) :
    unlabeledCount (setCell g p { g p with leader := some l }) < unlabeledCount g := by
  unfold unlabeledCount
  refine length_filter_lt_of_flip hp allPoints_nodup ⟨hnone, hb⟩ ?_ ?_
  · rw [setCell_same]
    rintro ⟨hcontra, -⟩
    cases hcontra
  · intro x _ hx
    by_cases hxp : x = p
    · subst hxp
      rw [setCell_same] at hx
      rcases hx with ⟨hcontra, -⟩
      cases hcontra
    · rw [setCell_other _ _ _ _ hxp] at hx
      exact hx

/-! ### Flood-fill completeness: no unlabeled same-color frontier remains -/

theorem ne_none_visit {fuel : Nat} {h : Grid} {p l : Point} {d : Direction} {a : Point}
    (ha : (h a).leader ≠ none) : ((visitDir fuel h p l d) a).leader ≠ none := by
  cases hx : (h a).leader with
  | none => exact absurd hx ha
  | some s => rw [visitDir_mono hx]; simp

theorem sameColorStep_transfer {gA gB : Grid}
    (hshell : ∀ r, (gB r).shell = (gA r).shell) {a b : Point}
    (h : sameColorStep gA a b) : sameColorStep gB a b := by
  obtain ⟨hd, hcol, hblk⟩ := h
  refine ⟨hd, ?_, ?_⟩
  · rw [Cell.shell_color (hshell b), Cell.shell_color (hshell a)]
    exact hcol
  · rw [Cell.shell_type (hshell b)]
    exact hblk

theorem visitDir_ff (fuel : Nat)
    (ih : ∀ (g : Grid) (p l : Point), p.inBounds → unlabeledCount g < fuel →
      (g p).leader = none →
      (∀ a b, (g a).leader = none → ((set_leaderF fuel g p l) a).leader ≠ none →
        sameColorStep g a b → ((set_leaderF fuel g p l) b).leader ≠ none) ∧
      ((g p).cell_type = CellType.Block → ((set_leaderF fuel g p l) p).leader ≠ none))
    (h : Grid) (p l : Point) (d : Direction)
    (hp : p.inBounds) (hcount : unlabeledCount h < fuel) :
    ∀ a b, (h a).leader = none → ((visitDir fuel h p l d) a).leader ≠ none →
      sameColorStep h a b → ((visitDir fuel h p l d) b).leader ≠ none := by
  intro a b ha hfa hscs
  unfold visitDir at hfa ⊢
  cases hn : neighbor p d with
  | none => rw [hn] at hfa; exact absurd ha hfa
  | some n =>
    rw [hn] at hfa
    dsimp only at hfa ⊢
    by_cases hc : (h n).color = (h p).color ∧ (h n).leader = none
    · rw [if_pos hc] at hfa ⊢
      exact (ih h n l (neighbor_inBounds hp hn) hcount hc.2).1 a b ha hfa hscs
    · rw [if_neg hc] at hfa
      exact absurd ha hfa

theorem visitDir_progress (fuel : Nat)
    (ih : ∀ (g : Grid) (p l : Point), p.inBounds → unlabeledCount g < fuel →
      (g p).leader = none →
      (∀ a b, (g a).leader = none → ((set_leaderF fuel g p l) a).leader ≠ none →
        sameColorStep g a b → ((set_leaderF fuel g p l) b).leader ≠ none) ∧
      ((g p).cell_type = CellType.Block → ((set_leaderF fuel g p l) p).leader ≠ none))
    (h : Grid) (p l : Point) (d : Direction) (n : Point)
    (hp : p.inBounds) (hcount : unlabeledCount h < fuel)
    (hn : neighbor p d = some n) (hcol : (h n).color = (h p).color)
    (hnone : (h n).leader = none) (hbn : (h n).cell_type = CellType.Block) :
    ((visitDir fuel h p l d) n).leader ≠ none := by
  unfold visitDir
  rw [hn]
  dsimp only
  rw [if_pos ⟨hcol, hnone⟩]
  exact (ih h n l (neighbor_inBounds hp hn) hcount hnone).2 hbn

theorem set_leaderF_complete : ∀ (fuel : Nat) (g : Grid) (p l : Point),
    p.inBounds → unlabeledCount g < fuel → (g p).leader = none →
    (∀ a b, (g a).leader = none → ((set_leaderF fuel g p l) a).leader ≠ none →
      sameColorStep g a b → ((set_leaderF fuel g p l) b).leader ≠ none) ∧
    ((g p).cell_type = CellType.Block → ((set_leaderF fuel g p l) p).leader ≠ none) := by
  intro fuel
  induction fuel with
  | zero => intro g p l _ hcount _; exact absurd hcount (by omega)
  | succ fuel ih =>
    intro g p l hp hcount hnone
    by_cases hb : (g p).cell_type = CellType.Block
    case neg =>
      rw [set_leaderF_not_block hb]
      exact ⟨fun a b ha hfa _ => absurd ha hfa, fun hbb => absurd hbb hb⟩
    case pos =>
      have hsucc := set_leaderF_succ fuel g p l
      rw [if_pos hb] at hsucc
      set g0 := setCell g p { g p with leader := some l } with hg0
      set h1 := visitDir fuel g0 p l Direction.Left with hh1
      set h2 := visitDir fuel h1 p l Direction.Right with hh2
      set h3 := visitDir fuel h2 p l Direction.Up with hh3
      have hs := set_leaderF_shell fuel
      have vshell := visitDir_shell fuel hs
      have shell0 : ∀ r, (g0 r).shell = (g r).shell := by
        intro r
        by_cases hr : r = p
        · subst hr; rw [hg0, setCell_same]; rfl
        · rw [hg0, setCell_other _ _ _ _ hr]
      have shell1 : ∀ r, (h1 r).shell = (g r).shell := fun r =>
        (vshell g0 p l Direction.Left r).trans (shell0 r)
      have shell2 : ∀ r, (h2 r).shell = (g r).shell := fun r =>
        (vshell h1 p l Direction.Right r).trans (shell1 r)
      have shell3 : ∀ r, (h3 r).shell = (g r).shell := fun r =>
        (vshell h2 p l Direction.Up r).trans (shell2 r)
      have hcnt0 : unlabeledCount g0 < fuel := by
        have hlt : unlabeledCount g0 < unlabeledCount g := by
          rw [hg0]
          exact @unlabeledCount_set_lt g p l (mem_allPoints.2 hp) hb hnone
        omega
      have hcnt1 : unlabeledCount h1 < fuel :=
        lt_of_le_of_lt
          (unlabeledCount_le
            (fun q => Cell.shell_type (vshell g0 p l Direction.Left q))
            (fun q => none_back_visit))
          hcnt0
      have hcnt2 : unlabeledCount h2 < fuel :=
        lt_of_le_of_lt
          (unlabeledCount_le
            (fun q => Cell.shell_type (vshell h1 p l Direction.Right q))
            (fun q => none_back_visit))
          hcnt1
      have hcnt3 : unlabeledCount h3 < fuel :=
        lt_of_le_of_lt
          (unlabeledCount_le
            (fun q => Cell.shell_type (vshell h2 p l Direction.Up q))
            (fun q => none_back_visit))
          hcnt2
      rw [hsucc]
      constructor
      · intro a b ha hfa hscs
        by_cases a0 : (g0 a).leader = none
        · by_cases a1 : (h1 a).leader = none
          · by_cases a2 : (h2 a).leader = none
            · by_cases a3 : (h3 a).leader = none
              · exact visitDir_ff fuel ih h3 p l Direction.Down hp hcnt3 a b a3 hfa
                  (sameColorStep_transfer shell3 hscs)
              · exact ne_none_visit
                  (visitDir_ff fuel ih h2 p l Direction.Up hp hcnt2 a b a2 a3
                    (sameColorStep_transfer shell2 hscs))
            · exact ne_none_visit (ne_none_visit
                (visitDir_ff fuel ih h1 p l Direction.Right hp hcnt1 a b a1 a2
                  (sameColorStep_transfer shell1 hscs)))
          · exact ne_none_visit (ne_none_visit (ne_none_visit
              (visitDir_ff fuel ih g0 p l Direction.Left hp hcnt0 a b a0 a1
                (sameColorStep_transfer shell0 hscs))))
        · have hap : a = p := by
            by_contra hne
            rw [hg0, setCell_other _ _ _ _ hne] at a0
            exact a0 ha
          subst hap
          obtain ⟨⟨d, hnd⟩, hcolb, hblkb⟩ := hscs
          have hcol0 : (g0 b).color = (g0 a).color := by
            rw [Cell.shell_color (shell0 b), Cell.shell_color (shell0 a)]
            exact hcolb
          have hblk0 : (g0 b).cell_type = CellType.Block := by
            rw [Cell.shell_type (shell0 b)]
            exact hblkb
          cases d with
          | Left =>
            by_cases b0 : (g0 b).leader = none
            · exact ne_none_visit (ne_none_visit (ne_none_visit
                (visitDir_progress fuel ih g0 a l Direction.Left b hp hcnt0 hnd
                  hcol0 b0 hblk0)))
            · exact ne_none_visit (ne_none_visit (ne_none_visit (ne_none_visit b0)))
          | Right =>
            by_cases b1 : (h1 b).leader = none
            · have hcol1 : (h1 b).color = (h1 a).color := by
                rw [Cell.shell_color (shell1 b), Cell.shell_color (shell1 a)]
                exact hcolb
              have hblk1 : (h1 b).cell_type = CellType.Block := by
                rw [Cell.shell_type (shell1 b)]
                exact hblkb
              exact ne_none_visit (ne_none_visit
                (visitDir_progress fuel ih h1 a l Direction.Right b hp hcnt1 hnd
                  hcol1 b1 hblk1))
            · exact ne_none_visit (ne_none_visit (ne_none_visit b1))
          | Up =>
            by_cases b2 : (h2 b).leader = none
            · have hcol2 : (h2 b).color = (h2 a).color := by
                rw [Cell.shell_color (shell2 b), Cell.shell_color (shell2 a)]
                exact hcolb
              have hblk2 : (h2 b).cell_type = CellType.Block := by
                rw [Cell.shell_type (shell2 b)]
                exact hblkb
              exact ne_none_visit
                (visitDir_progress fuel ih h2 a l Direction.Up b hp hcnt2 hnd
                  hcol2 b2 hblk2)
            · exact ne_none_visit (ne_none_visit b2)
          | Down =>
            by_cases b3 : (h3 b).leader = none
            · have hcol3 : (h3 b).color = (h3 a).color := by
                rw [Cell.shell_color (shell3 b), Cell.shell_color (shell3 a)]
                exact hcolb
              have hblk3 : (h3 b).cell_type = CellType.Block := by
                rw [Cell.shell_type (shell3 b)]
                exact hblkb
              exact visitDir_progress fuel ih h3 a l Direction.Down b hp hcnt3 hnd
                hcol3 b3 hblk3
            · exact ne_none_visit b3
      · intro _
        have hmk := @set_leaderF_marks fuel g p l hb hnone
        rw [hsucc] at hmk
        rw [hmk]
        simp

/-! ### The connected-component relation -/

theorem SameComp_refl {g : Grid} {p : Point} (hb : (g p).cell_type = CellType.Block) :
    SameComp g p p :=
  ⟨hb, Relation.ReflTransGen.refl⟩

theorem SameComp_inBounds {g : Grid} {p q : Point} (hp : p.inBounds)
    (h : SameComp g p q) : q.inBounds := by
  obtain ⟨-, hrtg⟩ := h
  induction hrtg with
  | refl => exact hp
  | tail hab hbc ihx =>
    obtain ⟨⟨d, hnd⟩, -, -⟩ := hbc
    exact neighbor_inBounds ihx hnd

theorem SameComp_block_target {g : Grid} {p q : Point} (h : SameComp g p q) :
    (g q).cell_type = CellType.Block := by
  obtain ⟨hb, hrtg⟩ := h
  induction hrtg with
  | refl => exact hb
  | tail _ hbc _ => exact hbc.2.2

theorem SameComp_trans {g : Grid} {p q r : Point} (h1 : SameComp g p q)
    (h2 : SameComp g q r) : SameComp g p r :=
  ⟨h1.1, h1.2.trans h2.2⟩

theorem SameComp_symm {g : Grid} {p q : Point} (hp : p.inBounds)
    (h : SameComp g p q) : SameComp g q p := by
  obtain ⟨hb, hrtg⟩ := h
  induction hrtg with
  | refl => exact ⟨hb, Relation.ReflTransGen.refl⟩
  | tail hab hbc ihx =>
    rename_i b c
    have hscb : SameComp g p b := ⟨hb, hab⟩
    have hibb : b.inBounds := SameComp_inBounds hp hscb
    obtain ⟨⟨d, hnd⟩, hcol, hblkc⟩ := hbc
    have hibc : c.inBounds := neighbor_inBounds hibb hnd
    obtain ⟨d', hnd'⟩ := neighbor_symm hibb hibc hnd
    have hblkb : (g b).cell_type = CellType.Block := SameComp_block_target hscb
    refine ⟨hblkc, Relation.ReflTransGen.head ⟨⟨d', hnd'⟩, hcol.symm, hblkb⟩ ihx.2⟩

theorem SameComp_transfer {gA gB : Grid}
    (hshell : ∀ r, (gB r).shell = (gA r).shell) {a b : Point}
    (h : SameComp gA a b) : SameComp gB a b := by
  obtain ⟨hb, hrtg⟩ := h
  refine ⟨?_, hrtg.mono fun x y hxy => sameColorStep_transfer hshell hxy⟩
  rw [Cell.shell_type (hshell a)]
  exact hb

/-- Every node of an unlabeled-frontier path is unlabeled. -/
theorem upath_none {g : Grid} {p q : Point} (hnone : (g p).leader = none)
    (h : Relation.ReflTransGen (ustep g) p q) : (g q).leader = none := by
  induction h with
  | refl => exact hnone
  | tail _ hbc _ => exact hbc.2

theorem upath_to_samecomp {g : Grid} {p q : Point}
    (hb : (g p).cell_type = CellType.Block)
    (h : Relation.ReflTransGen (ustep g) p q) : SameComp g p q :=
  ⟨hb, h.mono fun _ _ hxy => hxy.1⟩

/-- If labels are constant on the component of `p` and `p` is unlabeled,
every component path from `p` is an unlabeled-frontier path. -/
theorem samecomp_to_upath {g : Grid} {p q : Point}
    (hlabels : ∀ b, SameComp g p b → (g p).leader = (g b).leader)
    (hnone : (g p).leader = none) (h : SameComp g p q) :
    Relation.ReflTransGen (ustep g) p q := by
  obtain ⟨hb, hrtg⟩ := h
  induction hrtg with
  | refl => exact Relation.ReflTransGen.refl
  | tail hab hbc ihx =>
    rename_i b c
    refine Relation.ReflTransGen.tail ihx ⟨hbc, ?_⟩
    have : (g p).leader = (g c).leader :=
      hlabels c ⟨hb, Relation.ReflTransGen.tail hab hbc⟩
    rw [← this]
    exact hnone

/-- The whole flood fill labels everything reachable through unlabeled cells. -/
theorem set_leaderF_covers {fuel : Nat} {g : Grid} {p l : Point}
    (hp : p.inBounds) (hcount : unlabeledCount g < fuel)
    (hnone : (g p).leader = none) (hb : (g p).cell_type = CellType.Block) :
    ∀ q, Relation.ReflTransGen (ustep g) p q →
      ((set_leaderF fuel g p l) q).leader ≠ none := by
  intro q hpath
  induction hpath with
  | refl => exact (set_leaderF_complete fuel g p l hp hcount hnone).2 hb
  | tail hab hbc ihx =>
    exact (set_leaderF_complete fuel g p l hp hcount hnone).1 _ _
      (upath_none hnone hab) ihx hbc.1

theorem allPoints_length : allPoints.length = 1017 := by
  have h9 : CELLS_X_LEN.toNat = 9 := rfl
  have h113 : CELLS_Y_LEN.toNat = 113 := rfl
  rw [allPoints, h9, h113, List.length_flatMap]
  have : (List.map (List.length ∘ fun y : Nat =>
      List.map (fun x : Nat => Point.mk (Int.ofNat x) (Int.ofNat y)) (List.range 9))
      (List.range 113)) = List.replicate 113 9 := by
    rw [List.eq_replicate_iff]
    refine ⟨by simp, ?_⟩
    intro b hb
    simp only [List.mem_map, Function.comp] at hb
    obtain ⟨y, -, rfl⟩ := hb
    simp
  rw [this, List.sum_replicate]
  norm_num

/-! ### The outer labeling scan -/

theorem leaderScanStep_good {done : List Point} {todo : List Point} {g0 h : Grid}
    {p : Point} (hsplit : done ++ p :: todo = allPoints)
    (inv : LeadersGood g0 h done) :
    LeadersGood g0 (leaderScanStep h p) (done ++ [p]) := by
  obtain ⟨inv1, inv3, inv4, inv5⟩ := inv
  unfold leaderScanStep
  by_cases hnone : (h p).leader = none
  case neg =>
    rw [if_neg hnone]
    refine ⟨inv1, inv3, inv4, ?_⟩
    intro q hq hblk
    rcases List.mem_append.1 hq with hq | hq
    · exact inv5 q hq hblk
    · rw [List.mem_singleton.1 hq]
      exact hnone
  case pos =>
    rw [if_pos hnone]
    have hp_in : p ∈ allPoints := by
      rw [← hsplit]
      exact List.mem_append_right done (List.mem_cons_self p todo)
    have hpB : p.inBounds := mem_allPoints.1 hp_in
    have hcount : unlabeledCount h < LEADER_FUEL := by
      have h1 : unlabeledCount h ≤ allPoints.length := by
        unfold unlabeledCount
        exact List.length_filter_le _ _
      rw [allPoints_length] at h1
      unfold LEADER_FUEL
      omega
    by_cases hbp : (h p).cell_type = CellType.Block
    case neg =>
      rw [set_leaderF_not_block hbp]
      refine ⟨inv1, inv3, inv4, ?_⟩
      intro q hq hblk
      rcases List.mem_append.1 hq with hq | hq
      · exact inv5 q hq hblk
      · rw [List.mem_singleton.1 hq] at hblk ⊢
        exfalso
        rw [← Cell.shell_type (inv1 p)] at hblk
        exact hbp hblk
    case pos =>
      have hb0 : (g0 p).cell_type = CellType.Block := by
        rw [← Cell.shell_type (inv1 p)]
        exact hbp
      have K3 := set_leaderF_leader LEADER_FUEL h p p hnone
      have Kmono : ∀ q r, (h q).leader = some r →
          ((set_leaderF LEADER_FUEL h p p) q).leader = some r :=
        fun q r hq => set_leaderF_mono hnone hq
      have KneNone : ∀ q, (h q).leader ≠ none →
          ((set_leaderF LEADER_FUEL h p p) q).leader ≠ none := by
        intro q hq
        cases hx : (h q).leader with
        | none => exact absurd hx hq
        | some s => rw [Kmono q s hx]; simp
      have Ksound : ∀ q, ((set_leaderF LEADER_FUEL h p p) q).leader ≠ (h q).leader →
          SameComp g0 p q := fun q hch =>
        SameComp_transfer (fun r => (inv1 r).symm)
          (upath_to_samecomp hbp (set_leaderF_sound LEADER_FUEL h p p hnone q hch))
      have Kcomp : ∀ q, SameComp g0 p q →
          ((set_leaderF LEADER_FUEL h p p) q).leader ≠ none := by
        intro q hsc
        have hsch : SameComp h p q := SameComp_transfer inv1 hsc
        have hlab : ∀ b, SameComp h p b → (h p).leader = (h b).leader :=
          fun b hb => inv4 p b hpB (SameComp_transfer (fun r => (inv1 r).symm) hb)
        exact set_leaderF_covers hpB hcount hnone hbp q
          (samecomp_to_upath hlab hnone hsch)
      have Kval : ∀ q, ((set_leaderF LEADER_FUEL h p p) q).leader ≠ none →
          (h q).leader = none → ((set_leaderF LEADER_FUEL h p p) q).leader = some p := by
        intro q hne hqn
        rcases K3 q with heq | ⟨-, hv, -⟩
        · rw [heq] at hne; exact absurd hqn hne
        · exact hv
      have Kself : ((set_leaderF LEADER_FUEL h p p) p).leader = some p :=
        Kval p (Kcomp p (SameComp_refl hb0)) hnone
      refine ⟨?_, ?_, ?_, ?_⟩
      · exact fun q => (set_leaderF_shell LEADER_FUEL h p p q).trans (inv1 q)
      · intro q r hqr
        rcases K3 q with heq | ⟨hqn, hv, hqblk⟩
        · rw [heq] at hqr
          obtain ⟨hrB, hqB, hrr, hscrq, hmin⟩ := inv3 q r hqr
          exact ⟨hrB, hqB, Kmono r r hrr, hscrq, hmin⟩
        · have hrp : r = p := by
            rw [hv] at hqr
            exact (Option.some_inj.1 hqr).symm
          have hscpq : SameComp g0 p q := Ksound q (by rw [hv, hqn]; simp)
          refine ⟨?_, ?_, ?_, ?_, ?_⟩
          · rw [hrp]; exact hpB
          · rw [← Cell.shell_type (inv1 q)]
            exact hqblk
          · rw [hrp]; exact Kself
          · rw [hrp]; exact hscpq
          · intro m hm hscmq
            rw [hrp]
            have hscpm : SameComp g0 p m :=
              SameComp_trans hscpq (SameComp_symm hm hscmq)
            by_contra hlt
            push_neg at hlt
            have hmdone : m ∈ done :=
              mem_left_of_scanIdx_lt hsplit.symm (mem_allPoints.2 hm) hlt
            have hmblk : (g0 m).cell_type = CellType.Block :=
              SameComp_block_target hscpm
            have hmne := inv5 m hmdone hmblk
            have := inv4 p m hpB hscpm
            rw [hnone] at this
            exact hmne this.symm
      · intro q q' hqB hsc
        rcases K3 q with heq | ⟨hqn, hv, -⟩ <;>
          rcases K3 q' with heq' | ⟨hq'n, hv', -⟩
        · rw [heq, heq']
          exact inv4 q q' hqB hsc
        · exfalso
          have hscpq' : SameComp g0 p q' := Ksound q' (by rw [hv', hq'n]; simp)
          have hscpq : SameComp g0 p q :=
            SameComp_trans hscpq' (SameComp_symm hqB hsc)
          have hne := Kcomp q hscpq
          rw [heq] at hne
          have := inv4 q q' hqB hsc
          rw [hq'n] at this
          exact hne this
        · exfalso
          have hscpq : SameComp g0 p q := Ksound q (by rw [hv, hqn]; simp)
          have hscpq' : SameComp g0 p q' := SameComp_trans hscpq hsc
          have hne := Kcomp q' hscpq'
          rw [heq'] at hne
          have := inv4 q q' hqB hsc
          rw [hqn] at this
          exact hne this.symm
        · rw [hv, hv']
      · intro q hq hblk
        rcases List.mem_append.1 hq with hq | hq
        · exact KneNone q (inv5 q hq hblk)
        · rw [List.mem_singleton.1 hq]
          rw [Kself]
          simp

theorem set_leaders_fold :
    ∀ (todo done : List Point) (g0 h : Grid),
      done ++ todo = allPoints →
      LeadersGood g0 h done →
      LeadersGood g0 (todo.foldl leaderScanStep h) (done ++ todo) := by
  intro todo
  induction todo with
  | nil =>
    intro done g0 h hsplit inv
    simpa using inv
  | cons p todo ihl =>
    intro done g0 h hsplit inv
    have hstep := leaderScanStep_good hsplit inv
    have hsplit' : (done ++ [p]) ++ todo = allPoints := by
      rw [List.append_assoc]
      simpa using hsplit
    have := ihl (done ++ [p]) g0 (leaderScanStep h p) hsplit' hstep
    rw [List.append_assoc] at this
    simpa using this

/-- The master correctness fact for `set_leaders`. -/
theorem set_leaders_good (g : Grid) :
    LeadersGood (fun q => { g q with leader := none }) (set_leaders g) allPoints := by
  have hinit : LeadersGood (fun q => { g q with leader := none })
      (fun q => { g q with leader := none }) [] := by
    refine ⟨fun q => rfl, ?_, ?_, ?_⟩
    · intro q r hqr
      exact absurd hqr (by simp)
    · intro q q' _ _
      rfl
    · intro q hq
      cases hq
  have := set_leaders_fold allPoints [] (fun q => { g q with leader := none })
    (fun q => { g q with leader := none }) (by simp) hinit
  simpa [set_leaders] using this

/-! ### Consequences of the scan invariant, stated over `set_leaders g` -/

theorem set_leaders_shell (g : Grid) (q : Point) :
    ((set_leaders g) q).shell = (g q).shell :=
  (set_leaders_good g).1 q

theorem set_leaders_type (g : Grid) (q : Point) :
    ((set_leaders g) q).cell_type = (g q).cell_type :=
  Cell.shell_type (set_leaders_shell g q)

/-- `SameComp` is insensitive to anything but cell types and colors, so it
transfers between `g`, the cleared grid, and `set_leaders g`. -/
theorem SameComp_set_leaders_iff {g : Grid} {a b : Point} :
    SameComp (set_leaders g) a b ↔ SameComp g a b := by
  constructor
  · intro h
    exact SameComp_transfer (fun r => (set_leaders_shell g r).symm) h
  · intro h
    exact SameComp_transfer (set_leaders_shell g) h

theorem SameComp_cleared_iff {g : Grid} {a b : Point} :
    SameComp (fun q => { g q with leader := none }) a b ↔ SameComp g a b := by
  constructor
  · intro h
    exact SameComp_transfer (fun r => rfl) h
  · intro h
    exact SameComp_transfer (fun r => rfl) h

theorem set_leaders_none_of_not_block {g : Grid} {q : Point}
    (h : ¬ (g q).cell_type = CellType.Block) :
    ((set_leaders g) q).leader = none := by
  cases hx : ((set_leaders g) q).leader with
  | none => rfl
  | some r =>
    exfalso
    exact h ((set_leaders_good g).2.1 q r hx).2.1

theorem set_leaders_labeled {g : Grid} {q : Point} (hq : q.inBounds)
    (hb : (g q).cell_type = CellType.Block) :
    ((set_leaders g) q).leader ≠ none :=
  (set_leaders_good g).2.2.2 q (mem_allPoints.2 hq) hb

/-- The label of a labeled cell: an in-bounds cell of the same component
which labels itself and is scan-order minimal in the component. -/
theorem set_leaders_label_spec {g : Grid} {q r : Point}
    (h : ((set_leaders g) q).leader = some r) :
    r.inBounds ∧ (g q).cell_type = CellType.Block ∧
    ((set_leaders g) r).leader = some r ∧ SameComp g r q ∧
    (∀ m, m.inBounds → SameComp g m q → r.scanIdx ≤ m.scanIdx) := by
  obtain ⟨hrB, hqB, hrr, hsc, hmin⟩ := (set_leaders_good g).2.1 q r h
  exact ⟨hrB, hqB, hrr, SameComp_cleared_iff.1 hsc,
    fun m hm hscm => hmin m hm (SameComp_cleared_iff.2 hscm)⟩

theorem set_leaders_const {g : Grid} {q q' : Point} (hq : q.inBounds)
    (hsc : SameComp g q q') :
    ((set_leaders g) q).leader = ((set_leaders g) q').leader :=
  (set_leaders_good g).2.2.1 q q' hq (SameComp_cleared_iff.2 hsc)

theorem set_leaders_eq_iff {g : Grid} {q q' : Point} (hq : q.inBounds)
    (hq' : q'.inBounds) (hbq : (g q).cell_type = CellType.Block)
    (hbq' : (g q').cell_type = CellType.Block) :
    (((set_leaders g) q).leader = ((set_leaders g) q').leader ↔ SameComp g q q') := by
  constructor
  · intro heq
    cases hx : ((set_leaders g) q).leader with
    | none => exact absurd hx (set_leaders_labeled hq hbq)
    | some r =>
      have hx' : ((set_leaders g) q').leader = some r := by rw [← heq, hx]
      obtain ⟨hrB, -, -, hscrq, -⟩ := set_leaders_label_spec hx
      obtain ⟨-, -, -, hscrq', -⟩ := set_leaders_label_spec hx'
      exact SameComp_trans (SameComp_symm hrB hscrq) hscrq'
  · exact set_leaders_const hq

/-! ## Claim C1 -/

/-- **C1.** After every run of the connectivity labeling pass (`set_leaders`):
two Block cells carry equal labels iff they are connected by a path of
orthogonally adjacent Block cells of the same color; every Empty/Air cell
carries no label; and the label of a component is the position of the
component's first-visited cell under the fixed row-major scan order, i.e. the
scan-order minimum of the component. -/
theorem c1_labeling (g : Grid) :
    (∀ q, ((set_leaders g) q).cell_type ≠ CellType.Block →
      ((set_leaders g) q).leader = none) ∧
    (∀ q q', q.inBounds → q'.inBounds →
      ((set_leaders g) q).cell_type = CellType.Block →
      ((set_leaders g) q').cell_type = CellType.Block →
      (((set_leaders g) q).leader = ((set_leaders g) q').leader ↔
        SameComp (set_leaders g) q q')) ∧
    (∀ q, q.inBounds → ((set_leaders g) q).cell_type = CellType.Block →
      ∃ r, ((set_leaders g) q).leader = some r ∧
        SameComp (set_leaders g) r q ∧
        ∀ m, m.inBounds → SameComp (set_leaders g) m q →
          r.scanIdx ≤ m.scanIdx) := by
  refine ⟨?_, ?_, ?_⟩
  · intro q hnb
    refine set_leaders_none_of_not_block ?_
    rw [← set_leaders_type g q]
    exact hnb
  · intro q q' hq hq' hbq hbq'
    rw [set_leaders_type] at hbq hbq'
    rw [set_leaders_eq_iff hq hq' hbq hbq']
    exact SameComp_set_leaders_iff.symm
  · intro q hq hbq
    rw [set_leaders_type] at hbq
    cases hx : ((set_leaders g) q).leader with
    | none => exact absurd hx (set_leaders_labeled hq hbq)
    | some r =>
      obtain ⟨hrB, -, -, hsc, hmin⟩ := set_leaders_label_spec hx
      exact ⟨r, rfl, SameComp_set_leaders_iff.2 hsc,
        fun m hm hscm => hmin m hm (SameComp_set_leaders_iff.1 hscm)⟩

/-- Witness for C1: a concrete two-block grid, instantiating the labeling
equivalence at the two block cells. -/
theorem c1_labeling_witness :
    (Point.mk 0 0).inBounds ∧ (Point.mk 1 0).inBounds ∧
    ((set_leaders w1grid) ⟨0, 0⟩).cell_type = CellType.Block ∧
    ((set_leaders w1grid) ⟨1, 0⟩).cell_type = CellType.Block ∧
    (((set_leaders w1grid) ⟨0, 0⟩).leader = ((set_leaders w1grid) ⟨1, 0⟩).leader ↔
      SameComp (set_leaders w1grid) ⟨0, 0⟩ ⟨1, 0⟩) := by
  have hb1 : ((set_leaders w1grid) ⟨0, 0⟩).cell_type = CellType.Block := by
    rw [set_leaders_type]
    decide
  have hb2 : ((set_leaders w1grid) ⟨1, 0⟩).cell_type = CellType.Block := by
    rw [set_leaders_type]
    decide
  exact ⟨by decide, by decide, hb1, hb2,
    (c1_labeling w1grid).2.1 ⟨0, 0⟩ ⟨1, 0⟩ (by decide) (by decide) hb1 hb2⟩

/-! ### Components as leader classes; the cascade-erase pass -/

theorem Cell.sansType_color {c c' : Cell} (h : c.sansType = c'.sansType) :
    c.color = c'.color := congrArg Prod.fst h

theorem Cell.sansType_leader {c c' : Cell} (h : c.sansType = c'.sansType) :
    c.leader = c'.leader := congrArg (fun s => s.2.1) h

theorem Cell.sansType_fell {c c' : Cell} (h : c.sansType = c'.sansType) :
    c.fell = c'.fell := congrArg (fun s => s.2.2.2.2.2.2) h

theorem Cell.eq_of_sansType_type {c c' : Cell} (h : c.sansType = c'.sansType)
    (ht : c.cell_type = c'.cell_type) : c = c' := by
  cases c
  cases c'
  simp only [Cell.sansType, Prod.mk.injEq] at h
  obtain ⟨h1, h2, h3, h4, h5, h6, h7⟩ := h
  simp_all

theorem Cell.shell_fell {c c' : Cell} (h : c.shell = c'.shell) :
    c.fell = c'.fell := congrArg (fun s => s.2.2.2.2.2.2) h

theorem set_leaders_fell (g : Grid) (q : Point) :
    ((set_leaders g) q).fell = (g q).fell :=
  Cell.shell_fell (set_leaders_shell g q)

theorem mem_get_component {g : Grid} {p q : Point} :
    q ∈ get_component g p ↔ q.inBounds ∧ (g q).leader = (g p).leader := by
  unfold get_component
  rw [List.mem_filter]
  constructor
  · rintro ⟨hm, hl⟩
    exact ⟨mem_allPoints.1 hm, by simpa using hl⟩
  · rintro ⟨hq, hl⟩
    exact ⟨mem_allPoints.2 hq, by simpa using hl⟩

/-- Components only depend on the leader assignment. -/
theorem get_component_congr {g h : Grid}
    (hl : ∀ q, (h q).leader = (g q).leader) (p : Point) :
    get_component h p = get_component g p := by
  unfold get_component
  refine List.filter_congr ?_
  intro x _
  rw [hl x, hl p]

/-- Same leader, same component. -/
theorem get_component_eq_of_leader {g : Grid} {p q : Point}
    (h : (g q).leader = (g p).leader) :
    get_component g q = get_component g p := by
  unfold get_component
  refine List.filter_congr ?_
  intro x _
  rw [h]

/-- Evaluation of an inner loop `for point in component { mutate point }`
that maps each listed cell through `f`: since the component list has no
duplicates, the result is a pointwise update. -/
theorem foldl_setCell_map (f : Cell → Cell) :
    ∀ (l : List Point) (g : Grid) (x : Point), l.Nodup →
      ((l.foldl (fun h q => setCell h q (f (h q))) g) x) =
        if x ∈ l then f (g x) else g x := by
  intro l
  induction l with
  | nil => intro g x _; simp
  | cons a t ihl =>
    intro g x hnd
    obtain ⟨hat, hndt⟩ := List.nodup_cons.1 hnd
    rw [List.foldl_cons]
    rw [ihl (setCell g a (f (g a))) x hndt]
    by_cases hx : x = a
    · subst hx
      rw [if_neg hat, setCell_same, if_pos (List.mem_cons_self x t)]
    · rw [setCell_other _ _ _ _ hx]
      by_cases hxt : x ∈ t
      · rw [if_pos hxt, if_pos (List.mem_cons_of_mem a hxt)]
      · rw [if_neg hxt, if_neg (by simp [hx, hxt])]

theorem get_component_nodup (g : Grid) (p : Point) : (get_component g p).Nodup :=
  allPoints_nodup.filter _

/-- The erase pass, characterized through the scan: fields other than
`cell_type` never change; a cell whose type changed belongs to an erased
class of size at least 4, the whole class now being `None`; and after the
scanned prefix, every scanned fell-Block cell of a class of size at least 4
has its whole class erased. -/
theorem erase_fold_inv :
    ∀ (todo done : List Point) (g h : Grid),
      done ++ todo = allPoints →
      (∀ x, (h x).sansType = (g x).sansType) →
      (∀ x, (h x).cell_type = (g x).cell_type ∨
        ((h x).cell_type = CellType.None ∧ 4 ≤ (get_component g x).length ∧
          ∀ y, y.inBounds → (g y).leader = (g x).leader →
            (h y).cell_type = CellType.None)) →
      (∀ t, t ∈ done → (g t).cell_type = CellType.Block → (g t).fell = true →
        4 ≤ (get_component g t).length →
        ∀ y, y.inBounds → (g y).leader = (g t).leader →
          (h y).cell_type = CellType.None) →
      ((∀ x, ((todo.foldl eraseStep h) x).sansType = (g x).sansType) ∧
       (∀ x, ((todo.foldl eraseStep h) x).cell_type = (g x).cell_type ∨
         (((todo.foldl eraseStep h) x).cell_type = CellType.None ∧
           4 ≤ (get_component g x).length ∧
           ∀ y, y.inBounds → (g y).leader = (g x).leader →
             ((todo.foldl eraseStep h) y).cell_type = CellType.None)) ∧
       (∀ t, t ∈ done ++ todo → (g t).cell_type = CellType.Block →
         (g t).fell = true → 4 ≤ (get_component g t).length →
         ∀ y, y.inBounds → (g y).leader = (g t).leader →
           ((todo.foldl eraseStep h) y).cell_type = CellType.None)) := by
  intro todo
  induction todo with
  | nil =>
    intro done g h hsplit e1 e2 e3
    simpa using ⟨e1, e2, e3⟩
  | cons r todo ihl =>
    intro done g h hsplit e1 e2 e3
    simp only [List.foldl_cons]
    have hleader : ∀ x, (h x).leader = (g x).leader :=
      fun x => Cell.sansType_leader (e1 x)
    have hcompeq : ∀ x, get_component h x = get_component g x :=
      fun x => get_component_congr hleader x
    have hstep : (∀ x, ((eraseStep h r) x).sansType = (g x).sansType) ∧
        (∀ x, ((eraseStep h r) x).cell_type = (g x).cell_type ∨
          (((eraseStep h r) x).cell_type = CellType.None ∧
            4 ≤ (get_component g x).length ∧
            ∀ y, y.inBounds → (g y).leader = (g x).leader →
              ((eraseStep h r) y).cell_type = CellType.None)) ∧
        (∀ t, t ∈ done ++ [r] → (g t).cell_type = CellType.Block →
          (g t).fell = true → 4 ≤ (get_component g t).length →
          ∀ y, y.inBounds → (g y).leader = (g t).leader →
            ((eraseStep h r) y).cell_type = CellType.None) := by
      by_cases hcond : (h r).cell_type = CellType.Block ∧ (h r).fell = true
      case neg =>
        have hid : eraseStep h r = h := by
          unfold eraseStep
          rw [if_neg hcond]
        rw [hid]
        refine ⟨e1, e2, ?_⟩
        intro t ht htb htf htlen y hy hyl
        rcases List.mem_append.1 ht with ht | ht
        · exact e3 t ht htb htf htlen y hy hyl
        · obtain rfl := List.mem_singleton.1 ht
          rcases e2 t with he | ⟨-, -, hall⟩
          · exfalso
            apply hcond
            refine ⟨?_, ?_⟩
            · rw [he]; exact htb
            · rw [Cell.sansType_fell (e1 t)]; exact htf
          · exact hall y hy hyl
      case pos =>
        by_cases hlen : 4 ≤ (get_component h r).length
        case neg =>
          have hid : eraseStep h r = h := by
            unfold eraseStep
            rw [if_pos hcond, if_neg hlen]
          rw [hid]
          refine ⟨e1, e2, ?_⟩
          intro t ht htb htf htlen y hy hyl
          rcases List.mem_append.1 ht with ht | ht
          · exact e3 t ht htb htf htlen y hy hyl
          · obtain rfl := List.mem_singleton.1 ht
            exfalso
            rw [hcompeq t] at hlen
            exact hlen htlen
        case pos =>
          have heval : ∀ x, (eraseStep h r) x =
              if x ∈ get_component h r then
                { h x with cell_type := CellType.None }
              else h x := by
            intro x
            have hfold := foldl_setCell_map
              (fun c => { c with cell_type := CellType.None })
              (get_component h r) h x (get_component_nodup h r)
            unfold eraseStep
            rw [if_pos hcond, if_pos hlen]
            exact hfold
          have hmemclass : ∀ y, y.inBounds → (g y).leader = (g r).leader →
              y ∈ get_component h r := by
            intro y hy hyl
            rw [mem_get_component]
            exact ⟨hy, by rw [hleader y, hleader r]; exact hyl⟩
          refine ⟨?_, ?_, ?_⟩
          · intro x
            rw [heval x]
            split
            · exact e1 x
            · exact e1 x
          · intro x
            by_cases hmem : x ∈ get_component h r
            · have hxl : (g x).leader = (g r).leader := by
                have := (mem_get_component.1 hmem).2
                rw [hleader x, hleader r] at this
                exact this
              refine Or.inr ⟨?_, ?_, ?_⟩
              · rw [heval x, if_pos hmem]
              · rw [get_component_eq_of_leader hxl, ← hcompeq r]
                exact hlen
              · intro y hy hyl
                rw [hxl] at hyl
                rw [heval y, if_pos (hmemclass y hy hyl)]
            · rw [heval x, if_neg hmem]
              rcases e2 x with he | ⟨hn, hl, hall⟩
              · exact Or.inl he
              · refine Or.inr ⟨hn, hl, ?_⟩
                intro y hy hyl
                rw [heval y]
                split
                · rfl
                · exact hall y hy hyl
          · intro t ht htb htf htlen y hy hyl
            rcases List.mem_append.1 ht with ht | ht
            · have := e3 t ht htb htf htlen y hy hyl
              rw [heval y]
              split
              · rfl
              · exact this
            · obtain rfl := List.mem_singleton.1 ht
              rw [heval y, if_pos (hmemclass y hy hyl)]
    obtain ⟨f1, f2, f3⟩ := hstep
    have hsplit' : (done ++ [r]) ++ todo = allPoints := by
      rw [List.append_assoc]
      simpa using hsplit
    have := ihl (done ++ [r]) g (eraseStep h r) hsplit' f1 f2 f3
    rw [List.append_assoc] at this
    simpa using this

theorem erase_inv (g : Grid) :
    (∀ x, ((erase_connected_blocks g) x).sansType = (g x).sansType) ∧
    (∀ x, ((erase_connected_blocks g) x).cell_type = (g x).cell_type ∨
      (((erase_connected_blocks g) x).cell_type = CellType.None ∧
        4 ≤ (get_component g x).length ∧
        ∀ y, y.inBounds → (g y).leader = (g x).leader →
          ((erase_connected_blocks g) y).cell_type = CellType.None)) ∧
    (∀ t, t.inBounds → (g t).cell_type = CellType.Block → (g t).fell = true →
      4 ≤ (get_component g t).length →
      ∀ y, y.inBounds → (g y).leader = (g t).leader →
        ((erase_connected_blocks g) y).cell_type = CellType.None) := by
  have h := erase_fold_inv allPoints [] g g (by simp)
    (fun x => rfl) (fun x => Or.inl rfl) (by intro t ht; cases ht)
  simp only [List.nil_append] at h
  obtain ⟨h1, h2, h3⟩ := h
  exact ⟨h1, h2, fun t ht => h3 t (mem_allPoints.2 ht)⟩

/-- Cells in classes smaller than the threshold are completely untouched by
the erase pass. -/
theorem erase_small_intact {g : Grid} {x : Point}
    (h : (get_component g x).length < 4) :
    (erase_connected_blocks g) x = g x := by
  rcases (erase_inv g).2.1 x with he | ⟨-, hlen, -⟩
  · exact Cell.eq_of_sansType_type ((erase_inv g).1 x) he
  · omega

/-- Membership in the code's leader class coincides with membership in the
spec's connected component, once labels have been recomputed. -/
theorem mem_component_iff {g : Grid} {p q : Point} (hp : p.inBounds)
    (hb : (g p).cell_type = CellType.Block) :
    q ∈ get_component (set_leaders g) p ↔ (q.inBounds ∧ SameComp g p q) := by
  constructor
  · intro hm
    obtain ⟨hq, hleq⟩ := mem_get_component.1 hm
    refine ⟨hq, ?_⟩
    cases hx : ((set_leaders g) p).leader with
    | none => exact absurd hx (set_leaders_labeled hp hb)
    | some r =>
      have hbq : (g q).cell_type = CellType.Block := by
        rw [hx] at hleq
        exact (set_leaders_label_spec hleq).2.1
      exact SameComp_symm hq ((set_leaders_eq_iff hq hp hbq hb).1 hleq)
  · rintro ⟨hq, hsc⟩
    refine mem_get_component.2 ⟨hq, ?_⟩
    exact ((set_leaders_eq_iff hp hq hb (SameComp_block_target hsc)).2 hsc).symm

/-! ## Claim C2 -/

/-- **C2.** In the cascade-erase pass run after re-labeling: for every Block
cell `p` with `fell = true`, if its connected component (the cells sharing
its label, which are exactly the same-color 4-connected component) has size
less than 4 it is never erased — every member cell is untouched — and if its
size is at least 4, every member cell is cleared to Empty by the pass. -/
theorem c2_cascade (g : Grid) (p : Point) (hp : p.inBounds)
    (hb : ((set_leaders g) p).cell_type = CellType.Block)
    (hf : ((set_leaders g) p).fell = true) :
    ((get_component (set_leaders g) p).length < 4 →
      ∀ q, q ∈ get_component (set_leaders g) p →
        (erase_connected_blocks (set_leaders g)) q = (set_leaders g) q) ∧
    (4 ≤ (get_component (set_leaders g) p).length →
      ∀ q, q ∈ get_component (set_leaders g) p →
        ((erase_connected_blocks (set_leaders g)) q).cell_type = CellType.None) ∧
    (∀ q, q ∈ get_component (set_leaders g) p ↔
      (q.inBounds ∧ SameComp g p q)) := by
  have hbg : (g p).cell_type = CellType.Block := by
    rw [← set_leaders_type g p]
    exact hb
  refine ⟨?_, ?_, fun q => mem_component_iff hp hbg⟩
  · intro hlen q hq
    obtain ⟨-, hleq⟩ := mem_get_component.1 hq
    refine erase_small_intact ?_
    rw [get_component_eq_of_leader hleq]
    exact hlen
  · intro hlen q hq
    obtain ⟨hqB, hleq⟩ := mem_get_component.1 hq
    exact (erase_inv (set_leaders g)).2.2 p hp hb hf hlen q hqB hleq

/-- Witness for C2: a concrete grid with a single just-fallen block. -/
theorem c2_cascade_witness :
    (Point.mk 0 0).inBounds ∧
    ((set_leaders w2grid) ⟨0, 0⟩).cell_type = CellType.Block ∧
    ((set_leaders w2grid) ⟨0, 0⟩).fell = true ∧
    (((get_component (set_leaders w2grid) ⟨0, 0⟩).length < 4 →
      ∀ q, q ∈ get_component (set_leaders w2grid) ⟨0, 0⟩ →
        (erase_connected_blocks (set_leaders w2grid)) q = (set_leaders w2grid) q) ∧
    (4 ≤ (get_component (set_leaders w2grid) ⟨0, 0⟩).length →
      ∀ q, q ∈ get_component (set_leaders w2grid) ⟨0, 0⟩ →
        ((erase_connected_blocks (set_leaders w2grid)) q).cell_type =
          CellType.None) ∧
    (∀ q, q ∈ get_component (set_leaders w2grid) ⟨0, 0⟩ ↔
      (q.inBounds ∧ SameComp w2grid ⟨0, 0⟩ q))) := by
  have hb : ((set_leaders w2grid) ⟨0, 0⟩).cell_type = CellType.Block := by
    rw [set_leaders_type]
    decide
  have hf : ((set_leaders w2grid) ⟨0, 0⟩).fell = true := by
    rw [set_leaders_fell]
    decide
  exact ⟨by decide, hb, hf, c2_cascade w2grid ⟨0, 0⟩ (by decide) hb hf⟩

/-! ### Counting non-empty cells; the gravity pass -/

theorem length_filter_update {α : Type} {l : List α} {P Q : α → Prop}
    [DecidablePred P] [DecidablePred Q] {a : α}
    (ha : a ∈ l) (hnd : l.Nodup)
    (hagree : ∀ x ∈ l, x ≠ a → (P x ↔ Q x)) :
    (l.filter fun x => decide (Q x)).length + (if P a then 1 else 0) =
      (l.filter fun x => decide (P x)).length + (if Q a then 1 else 0) := by
  induction l with
  | nil => cases ha
  | cons b t ihl =>
    obtain ⟨hbt, hndt⟩ := List.nodup_cons.1 hnd
    rcases List.mem_cons.1 ha with rfl | hat
    · have hfeq : t.filter (fun x => decide (Q x)) =
          t.filter (fun x => decide (P x)) := by
        refine List.filter_congr ?_
        intro x hx
        have hiff := hagree x (List.mem_cons_of_mem a hx) (fun he => hbt (he ▸ hx))
        rw [decide_eq_decide]
        exact hiff.symm
      by_cases hP : P a <;> by_cases hQ : Q a <;>
        simp [List.filter_cons, hP, hQ, hfeq]
    · have hagree' : ∀ x ∈ t, x ≠ a → (P x ↔ Q x) :=
        fun x hx => hagree x (List.mem_cons_of_mem b hx)
      have hba : b ≠ a := fun he => hbt (he ▸ hat)
      have hiff := hagree b (List.mem_cons_self b t) hba
      have ihx := ihl hat hndt hagree'
      by_cases hP : P b
      · have hQ : Q b := hiff.1 hP
        rw [List.filter_cons, List.filter_cons,
          if_pos (show decide (Q b) = true by simpa using hQ),
          if_pos (show decide (P b) = true by simpa using hP)]
        simp only [List.length_cons]
        omega
      · have hQ : ¬ Q b := fun hq => hP (hiff.2 hq)
        rw [List.filter_cons, List.filter_cons,
          if_neg (show ¬ decide (Q b) = true by simpa using hQ),
          if_neg (show ¬ decide (P b) = true by simpa using hP)]
        omega

theorem nonEmptyCount_setCell (g : Grid) (q : Point) (c : Cell) (hq : q.inBounds) :
    nonEmptyCount (setCell g q c) +
      (if (g q).cell_type ≠ CellType.None then 1 else 0) =
    nonEmptyCount g + (if c.cell_type ≠ CellType.None then 1 else 0) := by
  unfold nonEmptyCount
  have h := @length_filter_update Point allPoints
    (fun x => (g x).cell_type ≠ CellType.None)
    (fun x => (setCell g q c x).cell_type ≠ CellType.None)
    (fun x => instDecidableNot) (fun x => instDecidableNot)
    q (mem_allPoints.2 hq) allPoints_nodup
    (fun x _ hxq => by
      show ((g x).cell_type ≠ CellType.None) ↔
        ((setCell g q c x).cell_type ≠ CellType.None)
      rw [setCell_other _ _ _ _ hxq])
  simp only [setCell_same] at h
  exact h

/-- Writes that do not change the cell type keep the non-empty count. -/
theorem nonEmptyCount_setCell_same_type (g : Grid) (q : Point) (c : Cell)
    (hq : q.inBounds) (ht : c.cell_type = (g q).cell_type) :
    nonEmptyCount (setCell g q c) = nonEmptyCount g := by
  have h := nonEmptyCount_setCell g q c hq
  rw [ht] at h
  omega

theorem fallStep_count_le {g : Grid} {p : Point} (hp : p.inBounds) :
    nonEmptyCount (fallStep g p) ≤ nonEmptyCount g := by
  simp only [fallStep]
  set g1 := setCell g p { g p with fell := false } with hg1def
  have hg1 : nonEmptyCount g1 = nonEmptyCount g := by
    rw [hg1def]
    exact nonEmptyCount_setCell_same_type g p { g p with fell := false } hp rfl
  by_cases hne : (g1 p).cell_type ≠ CellType.None
  case neg => rw [if_neg hne]; omega
  rw [if_pos hne]
  by_cases hgr : (g1 p).grounded = false
  case neg => rw [if_neg hgr]; omega
  rw [if_pos hgr]
  by_cases hsh0 : (g1 p).shaking_frames < 0
  case pos =>
    rw [if_pos hsh0,
      nonEmptyCount_setCell_same_type g1 p { g1 p with shaking_frames := 0 } hp rfl]
    omega
  rw [if_neg hsh0]
  by_cases hsh1 : (g1 p).shaking_frames ≤ SHAKE_FRAMES
  case pos =>
    rw [if_pos hsh1, nonEmptyCount_setCell_same_type g1 p
      { g1 p with shaking_frames := (g1 p).shaking_frames + 1 } hp rfl]
    omega
  rw [if_neg hsh1]
  by_cases hfa0 : (g1 p).falling_frames < 0
  case pos =>
    rw [if_pos hfa0,
      nonEmptyCount_setCell_same_type g1 p { g1 p with falling_frames := 0 } hp rfl]
    omega
  rw [if_neg hfa0]
  by_cases hfa1 : (g1 p).falling_frames ≤ FALL_FRAMES
  case pos =>
    rw [if_pos hfa1, nonEmptyCount_setCell_same_type g1 p
      { g1 p with falling_frames := (g1 p).falling_frames + 1 } hp rfl]
    omega
  rw [if_neg hfa1]
  cases hdn : neighbor p Direction.Down with
  | none =>
    show nonEmptyCount g1 ≤ nonEmptyCount g
    omega
  | some dn =>
    dsimp only
    have hdnB : dn.inBounds := neighbor_inBounds hp hdn
    have hdnp : dn ≠ p := neighbor_ne hdn
    have h2 := nonEmptyCount_setCell g1 dn (g1 p) hdnB
    set g2 := setCell g1 dn (g1 p) with hg2def
    have hg2p : g2 p = g1 p := by
      rw [hg2def, setCell_other _ _ _ _ (fun he => hdnp he.symm)]
    have h3 := nonEmptyCount_setCell g2 p { g2 p with cell_type := CellType.None } hp
    set g3 := setCell g2 p { g2 p with cell_type := CellType.None } with hg3def
    have h4 : nonEmptyCount (setCell g3 dn { g3 dn with fell := true }) =
        nonEmptyCount g3 :=
      nonEmptyCount_setCell_same_type g3 dn { g3 dn with fell := true } hdnB rfl
    set g4 := setCell g3 dn { g3 dn with fell := true } with hg4def
    rw [hg2p] at h3
    rw [if_pos hne] at h2 h3
    have hnone0 : ¬ ((CellType.None : CellType) ≠ CellType.None) := by simp
    simp only [if_neg hnone0] at h3
    cases hd2 : neighbor dn Direction.Down with
    | none =>
      dsimp only
      omega
    | some d2 =>
      have hd2B : d2.inBounds := neighbor_inBounds hdnB hd2
      dsimp only
      by_cases hair : (g4 d2).cell_type = CellType.Air
      · rw [if_pos hair]
        have h5 := nonEmptyCount_setCell g4 d2
          { g4 d2 with cell_type := CellType.None } hd2B
        simp only [if_neg hnone0] at h5
        omega
      · rw [if_neg hair]
        omega

theorem fall_count_le (g : Grid) :
    nonEmptyCount (fall_ungrounded_blocks g) ≤ nonEmptyCount g := by
  unfold fall_ungrounded_blocks
  have hgen : ∀ (l : List Point) (g : Grid), (∀ p ∈ l, p.inBounds) →
      nonEmptyCount (l.foldl fallStep g) ≤ nonEmptyCount g := by
    intro l
    induction l with
    | nil => intro g _; simp
    | cons a t ihl =>
      intro g hmem
      rw [List.foldl_cons]
      exact le_trans (ihl _ (fun p hp => hmem p (List.mem_cons_of_mem a hp)))
        (fallStep_count_le (hmem a (List.mem_cons_self a t)))
  exact hgen bottomUpPoints g (fun p hp => mem_bottomUpPoints.1 hp)

/-- The relocation unit of the gravity pass, fully characterized: the cell's
contents move into the downward neighbor (which is marked `fell`), the source
becomes Empty, an Air cell two rows below is popped, and nothing else
changes. -/
theorem fallStep_relocates {g : Grid} {p dn : Point}
    (hne : (g p).cell_type ≠ CellType.None)
    (hgr : (g p).grounded = false)
    (hsh : SHAKE_FRAMES < (g p).shaking_frames)
    (hfa : FALL_FRAMES < (g p).falling_frames)
    (hdn : neighbor p Direction.Down = some dn) :
    (fallStep g p) dn = { g p with fell := true } ∧
    (fallStep g p) p = { g p with cell_type := CellType.None, fell := false } ∧
    (∀ d2, neighbor dn Direction.Down = some d2 →
      (g d2).cell_type = CellType.Air →
      (fallStep g p) d2 = { g d2 with cell_type := CellType.None }) ∧
    (∀ x, x ≠ p → x ≠ dn →
      (∀ d2, neighbor dn Direction.Down = some d2 → x ≠ d2) →
      (fallStep g p) x = g x) := by
  have hdnp : dn ≠ p := neighbor_ne hdn
  have hpdn : p ≠ dn := fun he => hdnp he.symm
  obtain ⟨hdne, hdny⟩ := neighbor_down_eq hdn
  have hS : SHAKE_FRAMES = 43 := rfl
  have hF : FALL_FRAMES = 3 := rfl
  simp only [fallStep]
  set g1 := setCell g p { g p with fell := false } with hg1def
  have hg1p : g1 p = { g p with fell := false } := by
    rw [hg1def]
    exact setCell_same g p _
  rw [if_pos (show (g1 p).cell_type ≠ CellType.None by rw [hg1p]; exact hne),
    if_pos (show (g1 p).grounded = false by rw [hg1p]; exact hgr),
    if_neg (show ¬ (g1 p).shaking_frames < 0 by
      rw [hg1p]; show ¬ (g p).shaking_frames < 0; omega),
    if_neg (show ¬ (g1 p).shaking_frames ≤ SHAKE_FRAMES by
      rw [hg1p]; show ¬ (g p).shaking_frames ≤ SHAKE_FRAMES; omega),
    if_neg (show ¬ (g1 p).falling_frames < 0 by
      rw [hg1p]; show ¬ (g p).falling_frames < 0; omega),
    if_neg (show ¬ (g1 p).falling_frames ≤ FALL_FRAMES by
      rw [hg1p]; show ¬ (g p).falling_frames ≤ FALL_FRAMES; omega),
    hdn]
  dsimp only
  set g2 := setCell g1 dn (g1 p) with hg2def
  set g3 := setCell g2 p { g2 p with cell_type := CellType.None } with hg3def
  set g4 := setCell g3 dn { g3 dn with fell := true } with hg4def
  have hg4dn : g4 dn = { g p with fell := true } := by
    rw [hg4def, setCell_same, hg3def, setCell_other _ _ _ _ hdnp, hg2def,
      setCell_same, hg1p]
  have hg4p : g4 p = { g p with cell_type := CellType.None, fell := false } := by
    rw [hg4def, setCell_other _ _ _ _ hpdn, hg3def, setCell_same, hg2def,
      setCell_other _ _ _ _ hpdn, hg1p]
  have hg4x : ∀ x, x ≠ p → x ≠ dn → g4 x = g x := by
    intro x hxp hxdn
    rw [hg4def, setCell_other _ _ _ _ hxdn, hg3def, setCell_other _ _ _ _ hxp,
      hg2def, setCell_other _ _ _ _ hxdn, hg1def, setCell_other _ _ _ _ hxp]
  refine ⟨?_, ?_, ?_, ?_⟩
  · cases hd2 : neighbor dn Direction.Down with
    | none => exact hg4dn
    | some d2 =>
      have hd2dn : d2 ≠ dn := neighbor_ne hd2
      have hdnd2 : dn ≠ d2 := fun he => hd2dn he.symm
      dsimp only
      by_cases hair : (g4 d2).cell_type = CellType.Air
      · rw [if_pos hair, setCell_other _ _ _ _ hdnd2]
        exact hg4dn
      · rw [if_neg hair]
        exact hg4dn
  · cases hd2 : neighbor dn Direction.Down with
    | none => exact hg4p
    | some d2 =>
      obtain ⟨hd2e, -⟩ := neighbor_down_eq hd2
      have hpd2 : p ≠ d2 := by
        intro he
        rw [hd2e, hdne] at he
        have := congrArg Point.y he
        simp at this
        omega
      dsimp only
      by_cases hair : (g4 d2).cell_type = CellType.Air
      · rw [if_pos hair, setCell_other _ _ _ _ hpd2]
        exact hg4p
      · rw [if_neg hair]
        exact hg4p
  · intro d2 hd2 hair
    obtain ⟨hd2e, -⟩ := neighbor_down_eq hd2
    have hd2dn : d2 ≠ dn := neighbor_ne hd2
    have hd2p : d2 ≠ p := by
      intro he
      rw [hd2e, hdne] at he
      have := congrArg Point.y he
      simp at this
      omega
    have hg4d2 : g4 d2 = g d2 := hg4x d2 hd2p hd2dn
    rw [hd2]
    dsimp only
    rw [if_pos (by rw [hg4d2]; exact hair), setCell_same, hg4d2]
  · intro x hxp hxdn hxd2
    cases hd2 : neighbor dn Direction.Down with
    | none => exact hg4x x hxp hxdn
    | some d2 =>
      have hxd2' : x ≠ d2 := hxd2 d2 hd2
      dsimp only
      by_cases hair : (g4 d2).cell_type = CellType.Air
      · rw [if_pos hair, setCell_other _ _ _ _ hxd2']
        exact hg4x x hxp hxdn
      · rw [if_neg hair]
        exact hg4x x hxp hxdn

/-! ## Claim C3 -/

/-- **C3.** A single gravity-pass relocation (the per-cell body of
`fall_ungrounded_blocks`, applied to an unsupported, non-empty cell that has
completed its shake and fall phases) copies the cell's full contents into its
downward neighbor, which is marked `fell` (just landed); the source cell
becomes Empty; if the cell two rows below the original position is Air, that
Air cell is cleared to Empty; every other cell is untouched; and the total
number of non-Empty cells never increases across the whole pass. -/
theorem c3_gravity (g : Grid) (p dn : Point)
    (hne : (g p).cell_type ≠ CellType.None)
    (hgr : (g p).grounded = false)
    (hsh : SHAKE_FRAMES < (g p).shaking_frames)
    (hfa : FALL_FRAMES < (g p).falling_frames)
    (hdn : neighbor p Direction.Down = some dn) :
    nonEmptyCount (fall_ungrounded_blocks g) ≤ nonEmptyCount g ∧
    (fallStep g p) dn = { g p with fell := true } ∧
    (fallStep g p) p = { g p with cell_type := CellType.None, fell := false } ∧
    (∀ d2, neighbor dn Direction.Down = some d2 →
      (g d2).cell_type = CellType.Air →
      (fallStep g p) d2 = { g d2 with cell_type := CellType.None }) ∧
    (∀ x, x ≠ p → x ≠ dn →
      (∀ d2, neighbor dn Direction.Down = some d2 → x ≠ d2) →
      (fallStep g p) x = g x) := by
  obtain ⟨h1, h2, h3, h4⟩ := fallStep_relocates hne hgr hsh hfa hdn
  exact ⟨fall_count_le g, h1, h2, h3, h4⟩

/-- Witness for C3: the concrete one-block grid, with the relocation landing
on the cell below and popping the air pocket two rows down. -/
theorem c3_gravity_witness :
    (w3grid ⟨0, 0⟩).cell_type ≠ CellType.None ∧
    (w3grid ⟨0, 0⟩).grounded = false ∧
    SHAKE_FRAMES < (w3grid ⟨0, 0⟩).shaking_frames ∧
    FALL_FRAMES < (w3grid ⟨0, 0⟩).falling_frames ∧
    neighbor ⟨0, 0⟩ Direction.Down = some ⟨0, 1⟩ ∧
    (nonEmptyCount (fall_ungrounded_blocks w3grid) ≤ nonEmptyCount w3grid ∧
      (fallStep w3grid ⟨0, 0⟩) ⟨0, 1⟩ = { w3grid ⟨0, 0⟩ with fell := true } ∧
      (fallStep w3grid ⟨0, 0⟩) ⟨0, 0⟩ =
        { w3grid ⟨0, 0⟩ with cell_type := CellType.None, fell := false } ∧
      (∀ d2, neighbor ⟨0, 1⟩ Direction.Down = some d2 →
        (w3grid d2).cell_type = CellType.Air →
        (fallStep w3grid ⟨0, 0⟩) d2 = { w3grid d2 with cell_type := CellType.None }) ∧
      (∀ x, x ≠ ⟨0, 0⟩ → x ≠ ⟨0, 1⟩ →
        (∀ d2, neighbor ⟨0, 1⟩ Direction.Down = some d2 → x ≠ d2) →
        (fallStep w3grid ⟨0, 0⟩) x = w3grid x)) :=
  ⟨by decide, by decide, by decide, by decide, by decide,
    c3_gravity w3grid ⟨0, 0⟩ ⟨0, 1⟩ (by decide) (by decide) (by decide) (by decide)
      (by decide)⟩

/-! ### The dig operation on Clear cells -/

/-- What `dig` does to a Block cell whose color is Clear: it flags the win
and queues the clear sound, but it also zeroes the cell's durability and
erases the cell's entire leader class — every cell sharing the dug cell's
label becomes Empty. -/
theorem dig_clear_spec (game : Game) (p : Point)
    (hc : (game.cells p).color = BlockColor.Clear) :
    (dig game p).is_clear = true ∧
    (dig game p).requested_sounds = game.requested_sounds ++ ["clear.wav"] ∧
    (dig game p).cells p =
      { game.cells p with block_life := 0, cell_type := CellType.None } ∧
    (∀ q, q ≠ p → (game.cells q).leader = (game.cells p).leader →
      (dig game p).cells q = { game.cells q with cell_type := CellType.None }) ∧
    (∀ q, q ≠ p → ¬ (game.cells q).leader = (game.cells p).leader →
      (dig game p).cells q = game.cells q) ∧
    (dig game p).player = game.player ∧
    (dig game p).is_over = game.is_over ∧
    (dig game p).frame = game.frame ∧
    (dig game p).depth = game.depth ∧
    (dig game p).camera_y = game.camera_y := by
  have hnb : ¬ (game.cells p).color = BlockColor.Brown := by
    rw [hc]
    decide
  simp only [dig]
  rw [if_pos hc]
  dsimp only
  rw [if_neg hnb]
  dsimp only
  rw [if_neg (show ¬ ((setCell game.cells p
      { game.cells p with block_life := 0 }) p).block_life > 0 by
    rw [setCell_same]
    show ¬ (0 : Int) > 0
    decide)]
  dsimp only
  rw [if_neg (show ¬ ((setCell game.cells p
      { game.cells p with block_life := 0 }) p).color = BlockColor.Brown by
    rw [setCell_same]
    exact hnb)]
  dsimp only
  refine ⟨rfl, rfl, ?_, ?_, ?_, rfl, rfl, rfl, rfl, rfl⟩
  · rw [setCell_same]
    rw [if_pos rfl]
  · intro q hqp hql
    rw [setCell_other _ _ _ _ hqp, setCell_same]
    rw [if_pos hql]
  · intro q hqp hql
    rw [setCell_other _ _ _ _ hqp, setCell_same]
    rw [if_neg hql]

/-! ## Claim C4 -/

/-- **C4 counterexample.** The claim "digging a Clear Block cell sets
`is_clear` and never mutates other cells" is false: on a concrete grid with
two adjacent Clear blocks on the floor row (labels just recomputed by
`set_leaders`), digging the one at `(0, 112)` also erases the distinct cell
at `(1, 112)` — its type changes from Block to Empty. -/
theorem c4_dig_clear_cex :
    ((set_leaders w4grid) ⟨0, 112⟩).color = BlockColor.Clear ∧
    ((set_leaders w4grid) ⟨0, 112⟩).cell_type = CellType.Block ∧
    ((set_leaders w4grid) ⟨1, 112⟩).cell_type = CellType.Block ∧
    (Point.mk 1 112) ≠ (Point.mk 0 112) ∧
    ((dig (Game.new (set_leaders w4grid)) ⟨0, 112⟩).cells ⟨1, 112⟩).cell_type =
      CellType.None := by
  have hcol : ((set_leaders w4grid) ⟨0, 112⟩).color = BlockColor.Clear := by
    rw [Cell.shell_color (set_leaders_shell w4grid ⟨0, 112⟩)]
    decide
  have hb1 : ((set_leaders w4grid) ⟨0, 112⟩).cell_type = CellType.Block := by
    rw [set_leaders_type]
    decide
  have hb2 : ((set_leaders w4grid) ⟨1, 112⟩).cell_type = CellType.Block := by
    rw [set_leaders_type]
    decide
  have hsc : SameComp w4grid ⟨0, 112⟩ ⟨1, 112⟩ := by
    refine ⟨by decide, Relation.ReflTransGen.single ⟨⟨Direction.Right, ?_⟩, ?_, ?_⟩⟩
    · decide
    · decide
    · decide
  have hleq : ((set_leaders w4grid) ⟨1, 112⟩).leader =
      ((set_leaders w4grid) ⟨0, 112⟩).leader :=
    (set_leaders_const (by decide) hsc).symm
  obtain ⟨-, -, -, herase, -⟩ :=
    dig_clear_spec (Game.new (set_leaders w4grid)) ⟨0, 112⟩ hcol
  refine ⟨hcol, hb1, hb2, by decide, ?_⟩
  rw [herase ⟨1, 112⟩ (by decide) hleq]

/-- **C4 (amended).** Digging a Block cell whose color is Clear sets
`is_clear`, enqueues the clear sound, zeroes the dug cell's durability, and
erases the dug cell's entire label class (every cell sharing its `leader`
becomes Empty, the dug cell included); cells with a different label and the
rest of the game state are unchanged. -/
theorem c4_dig_clear_amended (game : Game) (p : Point)
    (hb : (game.cells p).cell_type = CellType.Block)
    (hc : (game.cells p).color = BlockColor.Clear) :
    (dig game p).is_clear = true ∧
    (dig game p).requested_sounds = game.requested_sounds ++ ["clear.wav"] ∧
    (dig game p).cells p =
      { game.cells p with block_life := 0, cell_type := CellType.None } ∧
    (∀ q, q ≠ p → (game.cells q).leader = (game.cells p).leader →
      (dig game p).cells q = { game.cells q with cell_type := CellType.None }) ∧
    (∀ q, q ≠ p → ¬ (game.cells q).leader = (game.cells p).leader →
      (dig game p).cells q = game.cells q) ∧
    (dig game p).player = game.player ∧
    (dig game p).is_over = game.is_over :=
  let h := dig_clear_spec game p hc
  ⟨h.1, h.2.1, h.2.2.1, h.2.2.2.1, h.2.2.2.2.1, h.2.2.2.2.2.1, h.2.2.2.2.2.2.1⟩

/-- Witness for the amended C4, on the concrete two-Clear-block grid. -/
theorem c4_dig_clear_amended_witness :
    ((set_leaders w4grid) ⟨0, 112⟩).cell_type = CellType.Block ∧
    ((set_leaders w4grid) ⟨0, 112⟩).color = BlockColor.Clear ∧
    (dig (Game.new (set_leaders w4grid)) ⟨0, 112⟩).is_clear = true := by
  have hcol : ((set_leaders w4grid) ⟨0, 112⟩).color = BlockColor.Clear := by
    rw [Cell.shell_color (set_leaders_shell w4grid ⟨0, 112⟩)]
    decide
  have hb1 : ((set_leaders w4grid) ⟨0, 112⟩).cell_type = CellType.Block := by
    rw [set_leaders_type]
    decide
  exact ⟨hb1, hcol,
    (c4_dig_clear_amended (Game.new (set_leaders w4grid)) ⟨0, 112⟩ hb1 hcol).1⟩

/-! ## Claim C5 -/

/-- **C5 counterexample.** A directional command arriving while the player is
Falling is not always ignored: on a concrete game whose player is Falling at
`(4, 5)` with a Block above, the `Up` command digs the block at `(4, 4)` —
its type changes from Block to Empty, so grid state changes although the
player is not Standing. -/
theorem c5_input_cex :
    w5game.player.state = PlayerState.Falling ∧
    (w5game.cells ⟨4, 4⟩).cell_type = CellType.Block ∧
    ((dig_or_walk w5game Direction.Up).cells ⟨4, 4⟩).cell_type = CellType.None := by
  refine ⟨rfl, by decide, ?_⟩
  decide

/-- **C5 (amended).** A Left or Right command arriving while the player is
Walking or Falling is ignored (no dig, no walk, no state change at all), but
an Up or Down command is not gated on the player state: even while Walking or
Falling it digs the corresponding neighbor whenever that neighbor is a
Block. -/
theorem c5_input_amended (game : Game) (d : Direction)
    (hs : game.player.state ≠ PlayerState.Standing) :
    ((d = Direction.Left ∨ d = Direction.Right) → dig_or_walk game d = game) ∧
    ((d = Direction.Up ∨ d = Direction.Down) →
      ∀ p, neighbor game.player.p d = some p →
        (game.cells p).cell_type = CellType.Block →
        dig_or_walk game d = dig game p) := by
  constructor
  · rintro (rfl | rfl) <;>
      simp only [dig_or_walk] <;> rw [if_neg hs]
  · rintro (rfl | rfl) <;> intro p hp hb <;>
      simp only [dig_or_walk] <;> rw [hp] <;> dsimp only <;> rw [hb]

/-- Witness for the amended C5, on the concrete Falling-player game. -/
theorem c5_input_amended_witness :
    w5game.player.state ≠ PlayerState.Standing ∧
    (dig_or_walk w5game Direction.Left = w5game ∧
      dig_or_walk w5game Direction.Up = dig w5game ⟨4, 4⟩) := by
  have hs : w5game.player.state ≠ PlayerState.Standing := by decide
  have h := c5_input_amended w5game Direction.Left hs
  have h2 := c5_input_amended w5game Direction.Up hs
  exact ⟨hs, h.1 (Or.inl rfl),
    h2.2 (Or.inl rfl) ⟨4, 4⟩ (by decide) (by decide)⟩

/-! ### The support pass: per-cell characterization -/

theorem Cell.static_type {c c' : Cell} (h : c.static = c'.static) :
    c.cell_type = c'.cell_type := congrArg Prod.fst h

theorem Cell.static_leader {c c' : Cell} (h : c.static = c'.static) :
    c.leader = c'.leader := congrArg (fun s => s.2.2.1) h

theorem groundStep_gr_iff {g : Grid} {p : Point} :
    ((match neighbor p Direction.Down with
      | none => true
      | some d =>
          decide ((g d).cell_type ≠ CellType.None) && (g d).grounded) = true) ↔
    downSupport g p := by
  cases hd : neighbor p Direction.Down with
  | none => simp [downSupport, hd]
  | some d => simp [downSupport, hd]

theorem groundStep_grounded {g : Grid} {p : Point} (h : (g p).grounded = true) :
    groundStep g p = g := by
  simp only [groundStep]
  rw [if_neg (by simp [h])]

theorem groundStep_nofire {g : Grid} {p : Point} (h : ¬ downSupport g p) :
    groundStep g p = g := by
  simp only [groundStep]
  by_cases hgr : (g p).grounded = false
  · rw [if_pos hgr, if_neg (fun hc => h (groundStep_gr_iff.1 hc))]
  · rw [if_neg hgr]

theorem groundStep_none {g : Grid} {p : Point}
    (h : (g p).cell_type = CellType.None) : groundStep g p = g := by
  simp only [groundStep, h]
  split
  · split
    · rfl
    · rfl
  · rfl

theorem groundStep_air {g : Grid} {p : Point} ( hgr : (g p).grounded = false)
    (hsup : downSupport g p) (ha : (g p).cell_type = CellType.Air) :
    groundStep g p = setCell g p { g p with grounded := true } := by
  simp only [groundStep, ha]
  rw [if_pos hgr, if_pos (groundStep_gr_iff.2 hsup)]

theorem groundStep_block {g : Grid} {p : Point} ( hgr : (g p).grounded = false)
    (hsup : downSupport g p) (hb : (g p).cell_type = CellType.Block) :
    ∀ x, (groundStep g p) x =
      if x.inBounds ∧ (g x).leader = (g p).leader then
        { g x with grounded := true, shaking_frames := -1, falling_frames := -1 }
      else g x := by
  intro x
  simp only [groundStep, hb]
  rw [if_pos hgr, if_pos (groundStep_gr_iff.2 hsup)]
  rw [foldl_setCell_map
    (fun c => { c with grounded := true, shaking_frames := -1, falling_frames := -1 })
    (get_component g p) g x (get_component_nodup g p)]
  by_cases hm : x ∈ get_component g p
  · rw [if_pos hm, if_pos (mem_get_component.1 hm)]
  · rw [if_neg hm, if_neg (fun hc => hm (mem_get_component.2 hc))]

theorem groundStep_cases (g : Grid) (p x : Point) :
    (groundStep g p) x = g x ∨
    (x = p ∧ (g p).cell_type = CellType.Air ∧ downSupport g p ∧
      (groundStep g p) x = { g x with grounded := true }) ∨
    ((g p).cell_type = CellType.Block ∧ downSupport g p ∧
      x ∈ get_component g p ∧
      (groundStep g p) x =
        { g x with grounded := true, shaking_frames := -1, falling_frames := -1 }) := by
  by_cases hgr : (g p).grounded = false
  case neg =>
    left
    rw [groundStep_grounded (by revert hgr; cases (g p).grounded <;> simp)]
  by_cases hsup : downSupport g p
  case neg =>
    left
    rw [groundStep_nofire hsup]
  cases ht : (g p).cell_type with
  | None =>
    left
    rw [groundStep_none ht]
  | Air =>
    by_cases hx : x = p
    · subst hx
      exact Or.inr (Or.inl ⟨rfl, rfl, hsup,
        by rw [groundStep_air hgr hsup ht, setCell_same]⟩)
    · left
      rw [groundStep_air hgr hsup ht, setCell_other _ _ _ _ hx]
  | Block =>
    by_cases hm : x ∈ get_component g p
    · exact Or.inr (Or.inr ⟨rfl, hsup, hm,
        by rw [groundStep_block hgr hsup ht x,
          if_pos (mem_get_component.1 hm)]⟩)
    · left
      rw [groundStep_block hgr hsup ht x,
        if_neg (fun hc => hm (mem_get_component.2 hc))]

theorem groundStep_static (g : Grid) (p x : Point) :
    ((groundStep g p) x).static = (g x).static := by
  rcases groundStep_cases g p x with he | ⟨-, -, -, he⟩ | ⟨-, -, -, he⟩ <;>
    rw [he] <;> rfl

theorem groundStep_mono {g : Grid} {p x : Point} (h : (g x).grounded = true) :
    ((groundStep g p) x).grounded = true := by
  rcases groundStep_cases g p x with he | ⟨-, -, -, he⟩ | ⟨-, -, -, he⟩
  · rw [he]; exact h
  · rw [he]
  · rw [he]

theorem foldl_groundStep_static : ∀ (l : List Point) (h : Grid) (x : Point),
    ((l.foldl groundStep h) x).static = (h x).static := by
  intro l
  induction l with
  | nil => intro h x; rfl
  | cons a t ihl =>
    intro h x
    rw [List.foldl_cons]
    exact (ihl (groundStep h a) x).trans (groundStep_static h a x)

theorem update_grounded_static (g : Grid) (x : Point) :
    ((update_grounded g) x).static = (g x).static :=
  foldl_groundStep_static bottomUpPoints _ x

theorem update_grounded_type (g : Grid) (x : Point) :
    ((update_grounded g) x).cell_type = (g x).cell_type :=
  Cell.static_type (update_grounded_static g x)

theorem foldl_groundStep_noop : ∀ (l : List Point) (h : Grid),
    (∀ p ∈ l, (h p).cell_type = CellType.None) → l.foldl groundStep h = h := by
  intro l
  induction l with
  | nil => intro h _; rfl
  | cons a t ihl =>
    intro h hmem
    rw [List.foldl_cons, groundStep_none (hmem a (List.mem_cons_self a t))]
    exact ihl h (fun p hp => hmem p (List.mem_cons_of_mem a hp))

/-! ### Decomposing the bottom-up traversal for concrete evaluations -/

theorem bottomUpPoints_decomp :
    bottomUpPoints =
      ((List.range 9).map fun x => Point.mk (Int.ofNat x) 112) ++
      (((List.range 9).map fun x => Point.mk (Int.ofNat x) 111) ++
      (((List.range 9).map fun x => Point.mk (Int.ofNat x) 110) ++
      (((List.range 110).reverse).flatMap fun y =>
        (List.range 9).map fun x => Point.mk (Int.ofNat x) (Int.ofNat y)))) := by
  show (((List.range 113).reverse).flatMap fun y =>
    (List.range 9).map fun x => Point.mk (Int.ofNat x) (Int.ofNat y)) = _
  have h1 : (List.range 113).reverse =
      112 :: 111 :: 110 :: (List.range 110).reverse := by
    rw [List.range_succ, List.range_succ, List.range_succ]
    simp
  rw [h1]
  rfl

theorem row_eval (k : Int) :
    ((List.range 9).map fun x => Point.mk (Int.ofNat x) k) =
      [⟨0, k⟩, ⟨1, k⟩, ⟨2, k⟩, ⟨3, k⟩, ⟨4, k⟩, ⟨5, k⟩, ⟨6, k⟩, ⟨7, k⟩, ⟨8, k⟩] := rfl

theorem mem_restRows {p : Point}
    (h : p ∈ ((List.range 110).reverse).flatMap fun y =>
      (List.range 9).map fun x => Point.mk (Int.ofNat x) (Int.ofNat y)) :
    p.y ≤ 109 := by
  simp only [List.mem_flatMap, List.mem_reverse, List.mem_range, List.mem_map] at h
  obtain ⟨y, hy, x, -, rfl⟩ := h
  show (Int.ofNat y) ≤ 109
  rw [Int.ofNat_eq_coe]
  omega

theorem restRows_noop (h : Grid)
    (hc : ∀ p : Point, p.y ≤ 109 → (h p).cell_type = CellType.None) :
    (((List.range 110).reverse).flatMap fun y =>
      (List.range 9).map fun x => Point.mk (Int.ofNat x) (Int.ofNat y)).foldl
        groundStep h = h :=
  foldl_groundStep_noop _ h (fun p hp => hc p (mem_restRows hp))

/-! ### C6: timers of supported cells -/

theorem w6_clear :
    (fun q => { (w6g false) q with grounded := false }) = w6g false := by
  funext q
  by_cases hq : q = (⟨0, 112⟩ : Point)
  · rw [hq]
    rfl
  · show { (w6g false) q with grounded := false } = w6g false q
    simp only [w6g, if_neg hq]
    rfl

theorem w6_set :
    setCell (w6g false) ⟨0, 112⟩ { (w6g false) ⟨0, 112⟩ with grounded := true } =
      w6g true := by
  funext q
  by_cases hq : q = (⟨0, 112⟩ : Point)
  · rw [hq, setCell_same]
    decide
  · rw [setCell_other _ _ _ _ hq]
    show w6g false q = w6g true q
    simp only [w6g, if_neg hq]

theorem w6_pass : update_grounded (w6g false) = w6g true := by
  have hA : (((List.range 9).map fun x => Point.mk (Int.ofNat x) 112).foldl
      groundStep (w6g false)) = w6g true := by
    rw [row_eval, List.foldl_cons,
      @groundStep_air (w6g false) ⟨0, 112⟩ (by decide) (Or.inl (by decide)) (by decide),
      w6_set]
    exact foldl_groundStep_noop _ _ (by intro p hp; fin_cases hp <;> decide)
  have hB : (((List.range 9).map fun x => Point.mk (Int.ofNat x) 111).foldl
      groundStep (w6g true)) = w6g true := by
    rw [row_eval]
    exact foldl_groundStep_noop _ _ (by intro p hp; fin_cases hp <;> decide)
  have hC : (((List.range 9).map fun x => Point.mk (Int.ofNat x) 110).foldl
      groundStep (w6g true)) = w6g true := by
    rw [row_eval]
    exact foldl_groundStep_noop _ _ (by intro p hp; fin_cases hp <;> decide)
  have hD : (w6g true) = w6g true := rfl
  show bottomUpPoints.foldl groundStep
    (fun q => { (w6g false) q with grounded := false }) = w6g true
  rw [w6_clear, bottomUpPoints_decomp, List.foldl_append, List.foldl_append,
    List.foldl_append, hA, hB, hC]
  refine restRows_noop _ ?_
  intro p hy
  have hne : p ≠ (⟨0, 112⟩ : Point) := by
    intro hc
    rw [hc] at hy
    exact absurd hy (by decide)
  simp [w6g, hne, Cell.new]

/-- **C6** — counterexample.  The claim says every supported cell leaves the
support pass with both timers equal to -1.  But the pass resets timers only
in the Block branch of the bottom-up loop; a supported *Air* cell keeps its
running shake timer: on `w6g false` (an Air cell on the floor row with
`shaking_frames = 5`) the pass marks the cell grounded yet its shake timer
stays 5. -/
theorem c6_timer_cex :
    ∃ (g : Grid) (q : Point), ((update_grounded g) q).grounded = true ∧
      ¬ (((update_grounded g) q).shaking_frames = -1 ∧
         ((update_grounded g) q).falling_frames = -1) := by
  refine ⟨w6g false, ⟨0, 112⟩, ?_, ?_⟩ <;> rw [w6_pass] <;> decide

/-- **C6** (amended): after the support pass, every supported **Block** cell
has both its shake and fall timers equal to -1 (Air cells can keep stale
timers, see the counterexample). -/
theorem c6_timer_amended (g : Grid) (q : Point)
    (hgr : ((update_grounded g) q).grounded = true)
    (hb : ((update_grounded g) q).cell_type = CellType.Block) :
    ((update_grounded g) q).shaking_frames = -1 ∧
    ((update_grounded g) q).falling_frames = -1 := by
  have hgen : ∀ (l : List Point) (h : Grid),
      (∀ x, (h x).grounded = true → (h x).cell_type = CellType.Block →
        (h x).shaking_frames = -1 ∧ (h x).falling_frames = -1) →
      ∀ x, ((l.foldl groundStep h) x).grounded = true →
        ((l.foldl groundStep h) x).cell_type = CellType.Block →
        ((l.foldl groundStep h) x).shaking_frames = -1 ∧
        ((l.foldl groundStep h) x).falling_frames = -1 := by
    intro l
    induction l with
    | nil => intro h hinv; exact hinv
    | cons a t ihl =>
      intro h hinv
      rw [List.foldl_cons]
      refine ihl (groundStep h a) ?_
      intro x hgx hbx
      rcases groundStep_cases h a x with he | ⟨hxa, hair, -, he⟩ | ⟨-, -, -, he⟩
      · rw [he] at hgx hbx ⊢
        exact hinv x hgx hbx
      · rw [he, hxa] at hbx
        have hb2 : (h a).cell_type = CellType.Block := hbx
        rw [hair] at hb2
        cases hb2
      · rw [he]
        exact ⟨rfl, rfl⟩
  refine hgen bottomUpPoints (fun x => { g x with grounded := false }) ?_ q hgr hb
  intro x hgx _
  exact absurd (show (false : Bool) = true from hgx) (by decide)

theorem w8g_other {q : Point} (hq : q ≠ ⟨0, 112⟩) (gr gr2 : Bool) :
    w8g gr q = w8g gr2 q := by
  simp [w8g, hq]

theorem w8_step0 : groundStep (w8g false) ⟨0, 112⟩ = w8g true := by
  funext x
  rw [@groundStep_block (w8g false) ⟨0, 112⟩ (by decide) (Or.inl (by decide))
    (by decide) x]
  by_cases hx : x = (⟨0, 112⟩ : Point)
  · rw [hx, if_pos ⟨by decide, by decide⟩]
    decide
  · rw [if_neg ?_, w8g_other hx]
    intro hc
    have hl : (w8g false x).leader = (w8g false ⟨0, 112⟩).leader := hc.2
    rw [w8g_other hx false true] at hl
    exact absurd hl (by simp [w8g, hx, Cell.new])

theorem w8_pass : update_grounded (w8g false) = w8g true := by
  have hcl : (fun q => { (w8g false) q with grounded := false }) = w8g false := by
    funext q
    by_cases hq : q = (⟨0, 112⟩ : Point)
    · rw [hq]
      rfl
    · show { (w8g false) q with grounded := false } = w8g false q
      simp only [w8g, if_neg hq]
      rfl
  have hA : (((List.range 9).map fun x => Point.mk (Int.ofNat x) 112).foldl
      groundStep (w8g false)) = w8g true := by
    rw [row_eval, List.foldl_cons, w8_step0]
    exact foldl_groundStep_noop _ _ (by intro p hp; fin_cases hp <;> decide)
  have hB : (((List.range 9).map fun x => Point.mk (Int.ofNat x) 111).foldl
      groundStep (w8g true)) = w8g true := by
    rw [row_eval]
    exact foldl_groundStep_noop _ _ (by intro p hp; fin_cases hp <;> decide)
  have hC : (((List.range 9).map fun x => Point.mk (Int.ofNat x) 110).foldl
      groundStep (w8g true)) = w8g true := by
    rw [row_eval]
    exact foldl_groundStep_noop _ _ (by intro p hp; fin_cases hp <;> decide)
  show bottomUpPoints.foldl groundStep
    (fun q => { (w8g false) q with grounded := false }) = w8g true
  rw [hcl, bottomUpPoints_decomp, List.foldl_append, List.foldl_append,
    List.foldl_append, hA, hB, hC]
  refine restRows_noop _ ?_
  intro p hy
  have hne : p ≠ (⟨0, 112⟩ : Point) := by
    intro hc
    rw [hc] at hy
    exact absurd hy (by decide)
  simp [w8g, hne, Cell.new]

/-- Witness for the amended C6 theorem: on `w8g false` (a red block with
stale timers 7 and 2 on the floor row) the support pass grounds the block,
and the theorem applies: both timers come out -1. -/
theorem c6_timer_amended_witness :
    ((update_grounded (w8g false)) ⟨0, 112⟩).shaking_frames = -1 ∧
    ((update_grounded (w8g false)) ⟨0, 112⟩).falling_frames = -1 := by
  have hgr : ((update_grounded (w8g false)) ⟨0, 112⟩).grounded = true := by
    rw [w8_pass]
    decide
  have hb : ((update_grounded (w8g false)) ⟨0, 112⟩).cell_type =
      CellType.Block := by
    rw [w8_pass]
    decide
  exact c6_timer_amended (w8g false) ⟨0, 112⟩ hgr hb

/-! ### C7: the support relation computed by the pass -/

theorem clear_of_ungrounded {g : Grid} (h : ∀ q, (g q).grounded = false) :
    (fun q => { g q with grounded := false }) = g := by
  funext q
  rw [← h q]

theorem noSupport_of_down_none (d : Point) {g : Grid} {p : Point}
    (hd : neighbor p Direction.Down = some d)
    (ht : (g d).cell_type = CellType.None) : ¬ downSupport g p := by
  rintro (h1 | ⟨e, he, hne, -⟩)
  · rw [hd] at h1
    cases h1
  · rw [hd] at he
    rw [← Option.some_inj.1 he] at hne
    exact hne ht

theorem noSupport_of_down_ungrounded (d : Point) {g : Grid} {p : Point}
    (hd : neighbor p Direction.Down = some d)
    (hg : (g d).grounded = false) : ¬ downSupport g p := by
  rintro (h1 | ⟨e, he, -, hgr⟩)
  · rw [hd] at h1
    cases h1
  · rw [hd] at he
    rw [← Option.some_inj.1 he, hg] at hgr
    cases hgr

theorem neighbor_down_floor {p : Point} (h : p.y = CELLS_Y_MAX) :
    neighbor p Direction.Down = none := by
  have hy : ¬ (p.y + 1 ≤ CELLS_Y_MAX) := by
    rw [h]
    omega
  simp only [neighbor]
  rw [if_neg hy]

theorem foldl_groundStep_mono : ∀ (l : List Point) (h : Grid) (x : Point),
    (h x).grounded = true → ((l.foldl groundStep h) x).grounded = true := by
  intro l
  induction l with
  | nil => intro h x hx; exact hx
  | cons a t ihl =>
    intro h x hx
    rw [List.foldl_cons]
    exact ihl (groundStep h a) x (groundStep_mono hx)

theorem w7g_ungrounded (q : Point) : (w7g false false q).grounded = false := by
  simp only [w7g]
  split_ifs <;> rfl

theorem w7g_green_indep {q : Point} (h6 : q ≠ ⟨2, 111⟩) (h7 : q ≠ ⟨2, 112⟩)
    (a b a2 : Bool) : w7g a b q = w7g a2 b q := by
  simp only [w7g]
  split_ifs <;> simp_all

theorem w7g_blue_indep {q : Point} (h2 : q ≠ ⟨1, 110⟩) (h3 : q ≠ ⟨2, 110⟩)
    (h4 : q ≠ ⟨0, 111⟩) (h5 : q ≠ ⟨1, 111⟩) (a b b2 : Bool) :
    w7g a b q = w7g a b2 q := by
  simp only [w7g]
  split_ifs <;> simp_all

theorem w7g_not_green_leader {q : Point} (h6 : q ≠ ⟨2, 111⟩) (h7 : q ≠ ⟨2, 112⟩)
    (a b : Bool) : (w7g a b q).leader ≠ some ⟨2, 111⟩ := by
  simp only [w7g]
  split_ifs <;> first | simp [w7cell, Cell.new] | simp_all

theorem w7g_not_blue_leader {q : Point} (h2 : q ≠ ⟨1, 110⟩) (h3 : q ≠ ⟨2, 110⟩)
    (h4 : q ≠ ⟨0, 111⟩) (h5 : q ≠ ⟨1, 111⟩) (a b : Bool) :
    (w7g a b q).leader ≠ some ⟨1, 110⟩ := by
  simp only [w7g]
  split_ifs <;> first | simp [w7cell, Cell.new] | simp_all

theorem w7g_low {p : Point} (hy : p.y ≤ 109) (a b : Bool) :
    w7g a b p = Cell.new := by
  have h1 : p ≠ (⟨0, 110⟩ : Point) := fun hc => absurd hy (by rw [hc]; decide)
  have h2 : p ≠ (⟨1, 110⟩ : Point) := fun hc => absurd hy (by rw [hc]; decide)
  have h3 : p ≠ (⟨2, 110⟩ : Point) := fun hc => absurd hy (by rw [hc]; decide)
  have h4 : p ≠ (⟨0, 111⟩ : Point) := fun hc => absurd hy (by rw [hc]; decide)
  have h5 : p ≠ (⟨1, 111⟩ : Point) := fun hc => absurd hy (by rw [hc]; decide)
  have h6 : p ≠ (⟨2, 111⟩ : Point) := fun hc => absurd hy (by rw [hc]; decide)
  have h7 : p ≠ (⟨2, 112⟩ : Point) := fun hc => absurd hy (by rw [hc]; decide)
  simp [w7g, h1, h2, h3, h4, h5, h6, h7]

theorem w7_mark_green :
    groundStep (w7g false false) ⟨2, 112⟩ = w7g true false := by
  funext x
  rw [@groundStep_block (w7g false false) ⟨2, 112⟩ (by decide) (Or.inl (by decide))
    (by decide) x]
  by_cases h6 : x = (⟨2, 111⟩ : Point)
  · rw [h6, if_pos ⟨by decide, by decide⟩]
    decide
  · by_cases h7 : x = (⟨2, 112⟩ : Point)
    · rw [h7, if_pos ⟨by decide, by decide⟩]
      decide
    · rw [if_neg (fun hc => w7g_not_green_leader h6 h7 false false
        (hc.2.trans (by decide)))]
      exact w7g_green_indep h6 h7 false false true

theorem w7_mark_blue :
    groundStep (w7g true false) ⟨2, 110⟩ = w7g true true := by
  funext x
  rw [@groundStep_block (w7g true false) ⟨2, 110⟩ (by decide)
    (Or.inr ⟨⟨2, 111⟩, by decide, by decide, by decide⟩) (by decide) x]
  by_cases h2 : x = (⟨1, 110⟩ : Point)
  · rw [h2, if_pos ⟨by decide, by decide⟩]
    decide
  · by_cases h3 : x = (⟨2, 110⟩ : Point)
    · rw [h3, if_pos ⟨by decide, by decide⟩]
      decide
    · by_cases h4 : x = (⟨0, 111⟩ : Point)
      · rw [h4, if_pos ⟨by decide, by decide⟩]
        decide
      · by_cases h5 : x = (⟨1, 111⟩ : Point)
        · rw [h5, if_pos ⟨by decide, by decide⟩]
          decide
        · rw [if_neg (fun hc => w7g_not_blue_leader h2 h3 h4 h5 true false
            (hc.2.trans (by decide)))]
          exact w7g_blue_indep h2 h3 h4 h5 true false true

theorem w7_pass : update_grounded (w7g false false) = w7g true true := by
  have hA : (((List.range 9).map fun x => Point.mk (Int.ofNat x) 112).foldl
      groundStep (w7g false false)) = w7g true false := by
    have e0 : groundStep (w7g false false) ⟨0, 112⟩ = w7g false false :=
      groundStep_none (by decide)
    have e1 : groundStep (w7g false false) ⟨1, 112⟩ = w7g false false :=
      groundStep_none (by decide)
    have e3 : groundStep (w7g true false) ⟨3, 112⟩ = w7g true false :=
      groundStep_none (by decide)
    have e4 : groundStep (w7g true false) ⟨4, 112⟩ = w7g true false :=
      groundStep_none (by decide)
    have e5 : groundStep (w7g true false) ⟨5, 112⟩ = w7g true false :=
      groundStep_none (by decide)
    have e6 : groundStep (w7g true false) ⟨6, 112⟩ = w7g true false :=
      groundStep_none (by decide)
    have e7 : groundStep (w7g true false) ⟨7, 112⟩ = w7g true false :=
      groundStep_none (by decide)
    have e8 : groundStep (w7g true false) ⟨8, 112⟩ = w7g true false :=
      groundStep_none (by decide)
    rw [row_eval]
    simp only [List.foldl_cons, List.foldl_nil]
    rw [e0, e1, w7_mark_green, e3, e4, e5, e6, e7, e8]
  have hB : (((List.range 9).map fun x => Point.mk (Int.ofNat x) 111).foldl
      groundStep (w7g true false)) = w7g true false := by
    have e0 : groundStep (w7g true false) ⟨0, 111⟩ = w7g true false :=
      groundStep_nofire (noSupport_of_down_none ⟨0, 112⟩ (by decide) (by decide))
    have e1 : groundStep (w7g true false) ⟨1, 111⟩ = w7g true false :=
      groundStep_nofire (noSupport_of_down_none ⟨1, 112⟩ (by decide) (by decide))
    have e2 : groundStep (w7g true false) ⟨2, 111⟩ = w7g true false :=
      groundStep_grounded (by decide)
    have e3 : groundStep (w7g true false) ⟨3, 111⟩ = w7g true false :=
      groundStep_none (by decide)
    have e4 : groundStep (w7g true false) ⟨4, 111⟩ = w7g true false :=
      groundStep_none (by decide)
    have e5 : groundStep (w7g true false) ⟨5, 111⟩ = w7g true false :=
      groundStep_none (by decide)
    have e6 : groundStep (w7g true false) ⟨6, 111⟩ = w7g true false :=
      groundStep_none (by decide)
    have e7 : groundStep (w7g true false) ⟨7, 111⟩ = w7g true false :=
      groundStep_none (by decide)
    have e8 : groundStep (w7g true false) ⟨8, 111⟩ = w7g true false :=
      groundStep_none (by decide)
    rw [row_eval]
    simp only [List.foldl_cons, List.foldl_nil]
    rw [e0, e1, e2, e3, e4, e5, e6, e7, e8]
  have hC : (((List.range 9).map fun x => Point.mk (Int.ofNat x) 110).foldl
      groundStep (w7g true false)) = w7g true true := by
    have e0 : groundStep (w7g true false) ⟨0, 110⟩ = w7g true false :=
      groundStep_nofire
        (noSupport_of_down_ungrounded ⟨0, 111⟩ (by decide) (by decide))
    have e1 : groundStep (w7g true false) ⟨1, 110⟩ = w7g true false :=
      groundStep_nofire
        (noSupport_of_down_ungrounded ⟨1, 111⟩ (by decide) (by decide))
    have e3 : groundStep (w7g true true) ⟨3, 110⟩ = w7g true true :=
      groundStep_none (by decide)
    have e4 : groundStep (w7g true true) ⟨4, 110⟩ = w7g true true :=
      groundStep_none (by decide)
    have e5 : groundStep (w7g true true) ⟨5, 110⟩ = w7g true true :=
      groundStep_none (by decide)
    have e6 : groundStep (w7g true true) ⟨6, 110⟩ = w7g true true :=
      groundStep_none (by decide)
    have e7 : groundStep (w7g true true) ⟨7, 110⟩ = w7g true true :=
      groundStep_none (by decide)
    have e8 : groundStep (w7g true true) ⟨8, 110⟩ = w7g true true :=
      groundStep_none (by decide)
    rw [row_eval]
    simp only [List.foldl_cons, List.foldl_nil]
    rw [e0, e1, w7_mark_blue, e3, e4, e5, e6, e7, e8]
  show bottomUpPoints.foldl groundStep
    (fun q => { (w7g false false) q with grounded := false }) = w7g true true
  rw [clear_of_ungrounded w7g_ungrounded, bottomUpPoints_decomp,
    List.foldl_append, List.foldl_append, List.foldl_append, hA, hB, hC]
  refine restRows_noop _ (fun p hy => ?_)
  rw [w7g_low hy true true]
  rfl

theorem empty_pass : update_grounded (fun _ => Cell.new) = fun _ => Cell.new := by
  show bottomUpPoints.foldl groundStep
    (fun _ => { Cell.new with grounded := false }) = _
  exact foldl_groundStep_noop _ _ (fun p _ => rfl)

theorem downSupport_step {h : Grid} (a t : Point) (hs : downSupport h t) :
    downSupport (groundStep h a) t := by
  rcases hs with h1 | ⟨d, hd, hne, hgr⟩
  · exact Or.inl h1
  · refine Or.inr ⟨d, hd, ?_, groundStep_mono hgr⟩
    intro hc
    exact hne ((Cell.static_type (groundStep_static h a d)).symm.trans hc)

/-- **C7** — counterexample.  The claim says (a) every floor-row cell leaves
the support pass marked supported, and (b) a component is supported iff some
member cell is on the floor row or has a non-Empty already-supported cell
directly below it.  Part (a) fails on an all-Empty grid: Empty floor cells
are never marked.  Part (b)'s "if" direction fails on the staircase grid
`w7g false false`: after the pass, the red block at `(0,110)` sits directly
on the supported non-Empty blue cell `(0,111)`, yet is not supported — the
blue component below it was only marked later in the same single bottom-up
sweep. -/
theorem c7_support_cex :
    (∃ (g : Grid) (q : Point), q.inBounds ∧ q.y = CELLS_Y_MAX ∧
      ((update_grounded g) q).grounded = false) ∧
    (∃ (g : Grid) (t d : Point), t.inBounds ∧
      ((update_grounded g) t).cell_type = CellType.Block ∧
      neighbor t Direction.Down = some d ∧
      ((update_grounded g) d).cell_type ≠ CellType.None ∧
      ((update_grounded g) d).grounded = true ∧
      ((update_grounded g) t).grounded = false) := by
  constructor
  · refine ⟨(fun _ => Cell.new), ⟨0, 112⟩, by decide, by decide, ?_⟩
    rw [empty_pass]
    rfl
  · refine ⟨w7g false false, ⟨0, 110⟩, ⟨0, 111⟩, by decide, ?_, by decide,
      ?_, ?_, ?_⟩ <;> rw [w7_pass] <;> decide

/-- **C7** (amended): after the support pass, (i) every **non-Empty** cell of
the floor row is marked supported, and (ii) marking is sound: every supported
cell shares its label with some cell that, in the final state, is on the
floor row or has a non-Empty supported cell directly below it (`downSupport`).
The converse of (ii) is false (see the counterexample): support found lower
in the grid later in the single bottom-up sweep does not propagate back up. -/
theorem c7_support_amended (g : Grid) (q : Point) :
    (q.inBounds → q.y = CELLS_Y_MAX → (g q).cell_type ≠ CellType.None →
      ((update_grounded g) q).grounded = true) ∧
    (((update_grounded g) q).grounded = true →
      ∃ t, downSupport (update_grounded g) t ∧
        ((update_grounded g) t).leader = ((update_grounded g) q).leader) := by
  constructor
  · intro hq hy hne
    obtain ⟨l1, l2, hsplit⟩ := List.append_of_mem (mem_bottomUpPoints.2 hq)
    show ((bottomUpPoints.foldl groundStep
      (fun x => { g x with grounded := false })) q).grounded = true
    rw [hsplit, List.foldl_append, List.foldl_cons]
    apply foldl_groundStep_mono l2
    by_cases hg1 : ((l1.foldl groundStep
        (fun x => { g x with grounded := false })) q).grounded = true
    · exact groundStep_mono hg1
    · have hgrf : ((l1.foldl groundStep
          (fun x => { g x with grounded := false })) q).grounded = false := by
        revert hg1
        cases ((l1.foldl groundStep
          (fun x => { g x with grounded := false })) q).grounded <;> simp
      have hsup : downSupport (l1.foldl groundStep
          (fun x => { g x with grounded := false })) q :=
        Or.inl (neighbor_down_floor hy)
      have htype : ((l1.foldl groundStep
          (fun x => { g x with grounded := false })) q).cell_type =
          (g q).cell_type :=
        Cell.static_type (foldl_groundStep_static l1 _ q)
      cases ht : (g q).cell_type with
      | None => exact absurd ht hne
      | Air =>
        rw [groundStep_air hgrf hsup (htype.trans ht), setCell_same]
      | Block =>
        rw [groundStep_block hgrf hsup (htype.trans ht) q, if_pos ⟨hq, rfl⟩]
  · have hgen : ∀ (l : List Point) (h : Grid),
        (∀ x, (h x).grounded = true →
          ∃ t, downSupport h t ∧ (h t).leader = (h x).leader) →
        ∀ x, ((l.foldl groundStep h) x).grounded = true →
          ∃ t, downSupport (l.foldl groundStep h) t ∧
            ((l.foldl groundStep h) t).leader =
            ((l.foldl groundStep h) x).leader := by
      intro l
      induction l with
      | nil => intro h hinv; exact hinv
      | cons a t2 ihl =>
        intro h hinv
        rw [List.foldl_cons]
        refine ihl (groundStep h a) ?_
        intro x hgx
        rcases groundStep_cases h a x with he | ⟨hxa, hair, hsup, he⟩ |
          ⟨hbl, hsup, hmem, he⟩
        · have hgx2 : (h x).grounded = true := by rw [← he]; exact hgx
          obtain ⟨t, hts, htl⟩ := hinv x hgx2
          refine ⟨t, downSupport_step a t hts, ?_⟩
          rw [Cell.static_leader (groundStep_static h a t),
            Cell.static_leader (groundStep_static h a x), htl]
        · refine ⟨x, ?_, rfl⟩
          rw [hxa]
          exact downSupport_step a a hsup
        · refine ⟨a, downSupport_step a a hsup, ?_⟩
          rw [Cell.static_leader (groundStep_static h a a),
            Cell.static_leader (groundStep_static h a x),
            (mem_get_component.1 hmem).2]
    intro hgr
    refine hgen bottomUpPoints (fun x => { g x with grounded := false }) ?_ q hgr
    intro x hgx
    exact absurd (show (false : Bool) = true from hgx) (by decide)

/-- Witness for the amended C7 theorem on `w8g false` (a red block on the
floor row): part (i) marks it supported, and part (ii) produces a supporting
cell with the same label. -/
theorem c7_support_amended_witness :
    ((update_grounded (w8g false)) ⟨0, 112⟩).grounded = true ∧
    ∃ t, downSupport (update_grounded (w8g false)) t ∧
      ((update_grounded (w8g false)) t).leader =
        ((update_grounded (w8g false)) ⟨0, 112⟩).leader := by
  have h1 := (c7_support_amended (w8g false) ⟨0, 112⟩).1 (by decide) (by decide)
    (by decide)
  exact ⟨h1, (c7_support_amended (w8g false) ⟨0, 112⟩).2 h1⟩

/-! ### C8: digging Brown blocks -/

theorem dig_brown_partial (game : Game) (p : Point)
    (hb : (game.cells p).color = BlockColor.Brown)
    (hl : (game.cells p).block_life - 25 > 0) :
    dig game p = { game with
      cells := setCell game.cells p
        { game.cells p with block_life := (game.cells p).block_life - 25 } } := by
  have hnc : ¬ (game.cells p).color = BlockColor.Clear := by
    rw [hb]
    decide
  simp only [dig]
  rw [if_neg hnc]
  rw [if_pos hb]
  dsimp only
  rw [if_pos (show ((setCell game.cells p { game.cells p with
      block_life := (game.cells p).block_life - 25 }) p).block_life > 0 by
    rw [setCell_same]
    exact hl)]

theorem dig_brown_break (game : Game) (p : Point)
    (hb : (game.cells p).color = BlockColor.Brown)
    (hl : ¬ (game.cells p).block_life - 25 > 0) :
    (dig game p).player = { game.player with
      air := clamp 0 (game.player.air - AIR_BREAK_PENALTY) AIR_MAX } ∧
    (dig game p).requested_sounds =
      game.requested_sounds ++ ["break_brown.wav"] ∧
    (dig game p).cells p = { game.cells p with
      block_life := (game.cells p).block_life - 25
      cell_type := CellType.None } ∧
    (∀ q, q ≠ p → (game.cells q).leader = (game.cells p).leader →
      (dig game p).cells q = { game.cells q with cell_type := CellType.None }) ∧
    (∀ q, q ≠ p → ¬ (game.cells q).leader = (game.cells p).leader →
      (dig game p).cells q = game.cells q) ∧
    (dig game p).is_clear = game.is_clear ∧
    (dig game p).is_over = game.is_over := by
  have hnc : ¬ (game.cells p).color = BlockColor.Clear := by
    rw [hb]
    decide
  simp only [dig]
  rw [if_neg hnc]
  rw [if_pos hb]
  dsimp only
  rw [if_neg (show ¬ ((setCell game.cells p { game.cells p with
      block_life := (game.cells p).block_life - 25 }) p).block_life > 0 by
    rw [setCell_same]
    exact hl)]
  dsimp only
  rw [if_pos (show ((setCell game.cells p { game.cells p with
      block_life := (game.cells p).block_life - 25 }) p).color =
      BlockColor.Brown by
    rw [setCell_same]
    exact hb)]
  dsimp only
  refine ⟨rfl, rfl, ?_, ?_, ?_, rfl, rfl⟩
  · rw [setCell_same]
    rw [if_pos rfl]
  · intro q hqp hql
    rw [setCell_other _ _ _ _ hqp, setCell_same]
    rw [if_pos hql]
  · intro q hqp hql
    rw [setCell_other _ _ _ _ hqp, setCell_same]
    rw [if_neg hql]

/-- **C8**: starting from full durability `BLOCK_LIFE_MAX = 100`, digging the
same Brown Block cell decrements its durability by 25 per hit; the first
three hits leave the cell a Block (durability 75, 50, 25) and change no other
cell, no player state and no sounds; the fourth hit reaches zero and fires
the erasure: the player's air becomes
`clamp 0 (air - AIR_BREAK_PENALTY) AIR_MAX`, a break sound is enqueued, the
dug cell and every cell sharing its label become Empty, and cells with a
different label are untouched. -/
theorem c8_brown_chain (game : Game) (p : Point)
    (hb : (game.cells p).color = BlockColor.Brown)
    (hbt : (game.cells p).cell_type = CellType.Block)
    (hlife : (game.cells p).block_life = BLOCK_LIFE_MAX) :
    (((dig game p).cells p).block_life = 75 ∧
      ((dig game p).cells p).cell_type = CellType.Block ∧
      (∀ q, q ≠ p → (dig game p).cells q = game.cells q) ∧
      (dig game p).player = game.player ∧
      (dig game p).requested_sounds = game.requested_sounds) ∧
    (((dig (dig game p) p).cells p).block_life = 50 ∧
      ((dig (dig game p) p).cells p).cell_type = CellType.Block ∧
      (∀ q, q ≠ p → (dig (dig game p) p).cells q = game.cells q) ∧
      (dig (dig game p) p).player = game.player ∧
      (dig (dig game p) p).requested_sounds = game.requested_sounds) ∧
    (((dig (dig (dig game p) p) p).cells p).block_life = 25 ∧
      ((dig (dig (dig game p) p) p).cells p).cell_type = CellType.Block ∧
      (∀ q, q ≠ p → (dig (dig (dig game p) p) p).cells q = game.cells q) ∧
      (dig (dig (dig game p) p) p).player = game.player ∧
      (dig (dig (dig game p) p) p).requested_sounds =
        game.requested_sounds) ∧
    ((dig (dig (dig (dig game p) p) p) p).player.air =
        clamp 0 (game.player.air - AIR_BREAK_PENALTY) AIR_MAX ∧
      (dig (dig (dig (dig game p) p) p) p).requested_sounds =
        game.requested_sounds ++ ["break_brown.wav"] ∧
      ((dig (dig (dig (dig game p) p) p) p).cells p).cell_type =
        CellType.None ∧
      (∀ q, q ≠ p → (game.cells q).leader = (game.cells p).leader →
        ((dig (dig (dig (dig game p) p) p) p).cells q).cell_type =
          CellType.None) ∧
      (∀ q, q ≠ p → ¬ (game.cells q).leader = (game.cells p).leader →
        (dig (dig (dig (dig game p) p) p) p).cells q = game.cells q)) := by
  have h1 := dig_brown_partial game p hb (by rw [hlife]; decide)
  have g1cell : (dig game p).cells p =
      { game.cells p with block_life := (game.cells p).block_life - 25 } := by
    rw [h1]
    exact setCell_same _ _ _
  have hb1 : ((dig game p).cells p).color = BlockColor.Brown := by
    rw [g1cell]
    exact hb
  have h2 := dig_brown_partial (dig game p) p hb1 (by
    rw [g1cell]
    show (game.cells p).block_life - 25 - 25 > 0
    rw [hlife]
    decide)
  have g2cell : (dig (dig game p) p).cells p =
      { game.cells p with block_life := (game.cells p).block_life - 25 - 25 } := by
    have ha : (dig (dig game p) p).cells p =
        { (dig game p).cells p with
          block_life := ((dig game p).cells p).block_life - 25 } := by
      rw [h2]
      exact setCell_same _ _ _
    rw [ha, g1cell]
  have hb2 : ((dig (dig game p) p).cells p).color = BlockColor.Brown := by
    rw [g2cell]
    exact hb
  have h3 := dig_brown_partial (dig (dig game p) p) p hb2 (by
    rw [g2cell]
    show (game.cells p).block_life - 25 - 25 - 25 > 0
    rw [hlife]
    decide)
  have g3cell : (dig (dig (dig game p) p) p).cells p =
      { game.cells p with
        block_life := (game.cells p).block_life - 25 - 25 - 25 } := by
    have ha : (dig (dig (dig game p) p) p).cells p =
        { (dig (dig game p) p).cells p with
          block_life := ((dig (dig game p) p).cells p).block_life - 25 } := by
      rw [h3]
      exact setCell_same _ _ _
    rw [ha, g2cell]
  have hb3 : ((dig (dig (dig game p) p) p).cells p).color =
      BlockColor.Brown := by
    rw [g3cell]
    exact hb
  have h4 := dig_brown_break (dig (dig (dig game p) p) p) p hb3 (by
    rw [g3cell]
    show ¬ (game.cells p).block_life - 25 - 25 - 25 - 25 > 0
    rw [hlife]
    decide)
  have e1 : ∀ q, q ≠ p → (dig game p).cells q = game.cells q := by
    intro q hq
    rw [h1]
    exact setCell_other _ _ _ _ hq
  have e2 : ∀ q, q ≠ p → (dig (dig game p) p).cells q = game.cells q := by
    intro q hq
    rw [h2]
    exact (setCell_other _ _ _ _ hq).trans (e1 q hq)
  have e3 : ∀ q, q ≠ p →
      (dig (dig (dig game p) p) p).cells q = game.cells q := by
    intro q hq
    rw [h3]
    exact (setCell_other _ _ _ _ hq).trans (e2 q hq)
  have p1 : (dig game p).player = game.player := by rw [h1]
  have p2 : (dig (dig game p) p).player = game.player := by rw [h2, h1]
  have p3 : (dig (dig (dig game p) p) p).player = game.player := by
    rw [h3, h2, h1]
  have s1 : (dig game p).requested_sounds = game.requested_sounds := by rw [h1]
  have s2 : (dig (dig game p) p).requested_sounds = game.requested_sounds := by
    rw [h2, h1]
  have s3 : (dig (dig (dig game p) p) p).requested_sounds =
      game.requested_sounds := by rw [h3, h2, h1]
  have hl3 : ∀ q, ((dig (dig (dig game p) p) p).cells q).leader =
      (game.cells q).leader := by
    intro q
    by_cases hq : q = p
    · rw [hq, g3cell]
    · rw [e3 q hq]
  refine ⟨⟨?_, ?_, e1, p1, s1⟩, ⟨?_, ?_, e2, p2, s2⟩, ⟨?_, ?_, e3, p3, s3⟩,
    ?_, ?_, ?_, ?_, ?_⟩
  · rw [g1cell]
    show (game.cells p).block_life - 25 = 75
    rw [hlife]
    decide
  · rw [g1cell]
    exact hbt
  · rw [g2cell]
    show (game.cells p).block_life - 25 - 25 = 50
    rw [hlife]
    decide
  · rw [g2cell]
    exact hbt
  · rw [g3cell]
    show (game.cells p).block_life - 25 - 25 - 25 = 25
    rw [hlife]
    decide
  · rw [g3cell]
    exact hbt
  · rw [h4.1, p3]
  · rw [h4.2.1, s3]
  · rw [h4.2.2.1]
  · intro q hq hql
    have hq2 : ((dig (dig (dig game p) p) p).cells q).leader =
        ((dig (dig (dig game p) p) p).cells p).leader := by
      rw [hl3 q, hl3 p]
      exact hql
    rw [h4.2.2.2.1 q hq hq2]
  · intro q hq hql
    have hq2 : ¬ ((dig (dig (dig game p) p) p).cells q).leader =
        ((dig (dig (dig game p) p) p).cells p).leader := by
      rw [hl3 q, hl3 p]
      exact hql
    rw [h4.2.2.2.2.1 q hq hq2]
    exact e3 q hq

/-- Witness for the Brown chain on a concrete one-block game: first hit
leaves durability 75, fourth hit enqueues the break sound and empties the
cell. -/
theorem c8_brown_chain_witness :
    ((dig w9game ⟨0, 0⟩).cells ⟨0, 0⟩).block_life = 75 ∧
    ((dig (dig (dig (dig w9game ⟨0, 0⟩) ⟨0, 0⟩) ⟨0, 0⟩) ⟨0, 0⟩).cells
      ⟨0, 0⟩).cell_type = CellType.None ∧
    (dig (dig (dig (dig w9game ⟨0, 0⟩) ⟨0, 0⟩) ⟨0, 0⟩) ⟨0, 0⟩).requested_sounds =
      w9game.requested_sounds ++ ["break_brown.wav"] := by
  have h := c8_brown_chain w9game ⟨0, 0⟩ (by decide) (by decide) (by decide)
  exact ⟨h.1.1, h.2.2.2.2.2.1, h.2.2.2.2.1⟩

/-! ### C9: frame counter and early return -/

theorem dig_frame (game : Game) (p : Point) : (dig game p).frame = game.frame := by
  simp only [dig]
  split_ifs <;> rfl

theorem dig_or_walk_frame (game : Game) (d : Direction) :
    (dig_or_walk game d).frame = game.frame := by
  cases d <;> simp only [dig_or_walk] <;> (repeat' split) <;>
    (first | rfl | exact dig_frame _ _)

theorem fall_start_frame (game : Game) :
    (fall_start game).frame = game.frame := by
  simp only [fall_start]
  (repeat' split) <;> rfl

theorem fall_advance_frame (game : Game) :
    (fall_advance game).frame = game.frame := by
  simp only [fall_advance]
  (repeat' split) <;> rfl

theorem walk_advance_frame (game : Game) :
    (walk_advance game).frame = game.frame := by
  simp only [walk_advance]
  (repeat' split) <;> rfl

theorem player_move_frame (game : Game) :
    (player_move game).frame = game.frame := by
  simp only [player_move]
  rw [walk_advance_frame, fall_advance_frame, fall_start_frame]

theorem air_pickup_frame (game : Game) :
    (air_pickup game).frame = game.frame := by
  simp only [air_pickup]
  split <;> rfl

theorem air_drain_frame (game : Game) :
    (air_drain game).frame = game.frame := rfl

theorem air_over_check_frame (game : Game) :
    (air_over_check game).frame = game.frame := by
  simp only [air_over_check]
  split <;> rfl

theorem squish_check_frame (game : Game) :
    (squish_check game).frame = game.frame := by
  simp only [squish_check]
  split <;> rfl

theorem update_tail_frame (game : Game) :
    (update_tail game).frame = game.frame := by
  simp only [update_tail]
  rw [squish_check_frame, air_over_check_frame, air_drain_frame,
    air_pickup_frame]

theorem update_cmd_frame (game : Game) (command : Command) :
    (update_cmd game command).frame = game.frame := by
  simp only [update_cmd]
  (repeat' split) <;>
    simp [update_tail_frame, dig_or_walk_frame]

theorem update_mid_frame (game : Game) (command : Command) :
    (update_mid game command).frame = game.frame := by
  simp only [update_mid]
  rw [update_cmd_frame]
  show (player_move game).frame = _
  rw [player_move_frame]

/-- **C9**: one call to `update` increments the frame counter by exactly 1 on
every path; and if `is_over` or `is_clear` holds at entry, no other field of
the game is mutated. -/
theorem c9_update (game : Game) (command : Command) :
    (update game command).frame = game.frame + 1 ∧
    (game.is_over = true ∨ game.is_clear = true →
      (update game command).cells = game.cells ∧
      (update game command).player = game.player ∧
      (update game command).is_over = game.is_over ∧
      (update game command).is_clear = game.is_clear ∧
      (update game command).requested_sounds = game.requested_sounds ∧
      (update game command).camera_y = game.camera_y ∧
      (update game command).depth = game.depth ∧
      (update game command).is_debug = game.is_debug) := by
  constructor
  · simp only [update]
    split
    · rfl
    · rw [update_mid_frame]
  · intro h
    simp only [update]
    split
    · exact ⟨rfl, rfl, rfl, rfl, rfl, rfl, rfl, rfl⟩
    · next hno => exact absurd h hno

/-- Witness for C9 on a concrete finished game (`is_over = true`): the frame
advances and the player is untouched. -/
theorem c9_update_witness :
    (update { Game.new (fun _ => Cell.new) with is_over := true }
      Command.None).frame =
      ({ Game.new (fun _ => Cell.new) with is_over := true } : Game).frame + 1 ∧
    (update { Game.new (fun _ => Cell.new) with is_over := true }
      Command.None).player =
      ({ Game.new (fun _ => Cell.new) with is_over := true } : Game).player := by
  have h := c9_update { Game.new (fun _ => Cell.new) with is_over := true }
    Command.None
  exact ⟨h.1, (h.2 (Or.inl rfl)).2.1⟩

/-! ### C10: the player stays in bounds -/

theorem neighbor_left_bound {q r : Point}
    (h : neighbor q Direction.Left = some r) : CELLS_X_MIN ≤ q.x - 1 := by
  simp only [neighbor] at h
  by_cases hc : CELLS_X_MIN ≤ q.x - 1
  · exact hc
  · rw [if_neg hc] at h
    cases h

theorem neighbor_right_bound {q r : Point}
    (h : neighbor q Direction.Right = some r) : q.x + 1 ≤ CELLS_X_MAX := by
  simp only [neighbor] at h
  by_cases hc : q.x + 1 ≤ CELLS_X_MAX
  · exact hc
  · rw [if_neg hc] at h
    cases h

theorem neighbor_down_bound {q r : Point}
    (h : neighbor q Direction.Down = some r) : q.y + 1 ≤ CELLS_Y_MAX := by
  simp only [neighbor] at h
  by_cases hc : q.y + 1 ≤ CELLS_Y_MAX
  · exact hc
  · rw [if_neg hc] at h
    cases h

theorem PlayerOK_pose {pl pl2 : Player} (h : pl2.pose = pl.pose)
    (hok : PlayerOK pl) : PlayerOK pl2 := by
  have hp : pl2.p = pl.p := congrArg Prod.fst h
  have hs : pl2.state = pl.state := congrArg (fun t => t.2.1) h
  have hd : pl2.direction = pl.direction := congrArg (fun t => t.2.2) h
  unfold PlayerOK
  rw [hp, hs, hd]
  exact hok

theorem dig_pose (game : Game) (p : Point) :
    (dig game p).player.pose = game.player.pose := by
  simp only [dig]
  split_ifs <;> rfl

theorem air_pickup_pose (game : Game) :
    (air_pickup game).player.pose = game.player.pose := by
  simp only [air_pickup]
  split <;> rfl

theorem air_drain_pose (game : Game) :
    (air_drain game).player.pose = game.player.pose := rfl

theorem air_over_check_pose (game : Game) :
    (air_over_check game).player.pose = game.player.pose := by
  simp only [air_over_check]
  split <;> rfl

theorem squish_check_pose (game : Game) :
    (squish_check game).player.pose = game.player.pose := by
  simp only [squish_check]
  split <;> rfl

theorem update_tail_pose (game : Game) :
    (update_tail game).player.pose = game.player.pose := by
  simp only [update_tail]
  rw [squish_check_pose, air_over_check_pose, air_drain_pose, air_pickup_pose]

theorem fall_start_ok (game : Game) (hok : PlayerOK game.player) :
    PlayerOK (fall_start game).player := by
  simp only [fall_start]
  split
  · rename_i down hd
    split
    · exact ⟨hok.1, fun hw => by simp at hw,
        fun _ => neighbor_down_bound hd⟩
    · exact hok
  · exact hok

theorem fall_advance_ok (game : Game) (hok : PlayerOK game.player) :
    PlayerOK (fall_advance game).player := by
  simp only [fall_advance]
  split
  · rename_i hfall
    split
    · refine ⟨?_, fun hw => by simp at hw, fun hf => by simp at hf⟩
      have hb := hok.1
      have hy := hok.2.2 hfall
      obtain ⟨e1, e2, e3, e4, -, -⟩ := bounds_eq
      unfold Point.inBounds at hb ⊢
      dsimp only
      rw [e1, e2, e3, e4] at hb ⊢
      rw [e4] at hy
      omega
    · exact hok
  · exact hok

theorem walk_advance_ok (game : Game) (hok : PlayerOK game.player) :
    PlayerOK (walk_advance game).player := by
  simp only [walk_advance]
  split
  · rename_i hwalk
    split
    · split
      · rename_i hdir
        refine ⟨?_, fun hw => by simp at hw, fun hf => by simp at hf⟩
        rcases hok.2.1 hwalk with ⟨-, hbound⟩ | ⟨hdr, -⟩
        · have hb := hok.1
          obtain ⟨e1, e2, e3, e4, -, -⟩ := bounds_eq
          unfold Point.inBounds at hb ⊢
          dsimp only
          rw [e1, e2, e3, e4] at hb ⊢
          rw [e1] at hbound
          omega
        · rw [hdir] at hdr
          cases hdr
      · rename_i hdir
        refine ⟨?_, fun hw => by simp at hw, fun hf => by simp at hf⟩
        rcases hok.2.1 hwalk with ⟨hdl, -⟩ | ⟨-, hbound⟩
        · exact absurd hdl hdir
        · have hb := hok.1
          obtain ⟨e1, e2, e3, e4, -, -⟩ := bounds_eq
          unfold Point.inBounds at hb ⊢
          dsimp only
          rw [e1, e2, e3, e4] at hb ⊢
          rw [e2] at hbound
          omega
    · exact hok
  · exact hok

theorem player_move_ok (game : Game) (hok : PlayerOK game.player) :
    PlayerOK (player_move game).player := by
  simp only [player_move]
  exact walk_advance_ok _ (fall_advance_ok _ (fall_start_ok _ hok))

theorem dig_or_walk_ok (game : Game) (d : Direction)
    (hok : PlayerOK game.player) : PlayerOK (dig_or_walk game d).player := by
  cases d
  case Left =>
    simp only [dig_or_walk]
    split
    · split
      · rename_i p hn
        split
        · exact ⟨hok.1, fun _ => Or.inl ⟨rfl, neighbor_left_bound hn⟩,
            fun hf => by simp at hf⟩
        · exact ⟨hok.1, fun _ => Or.inl ⟨rfl, neighbor_left_bound hn⟩,
            fun hf => by simp at hf⟩
        · exact PlayerOK_pose (dig_pose game p) hok
      · exact hok
    · exact hok
  case Right =>
    simp only [dig_or_walk]
    split
    · split
      · rename_i p hn
        split
        · exact ⟨hok.1, fun _ => Or.inr ⟨rfl, neighbor_right_bound hn⟩,
            fun hf => by simp at hf⟩
        · exact ⟨hok.1, fun _ => Or.inr ⟨rfl, neighbor_right_bound hn⟩,
            fun hf => by simp at hf⟩
        · exact PlayerOK_pose (dig_pose game p) hok
      · exact hok
    · exact hok
  case Up =>
    simp only [dig_or_walk]
    split
    · rename_i p hn
      split
      · exact PlayerOK_pose (dig_pose game p) hok
      · exact hok
    · exact hok
  case Down =>
    simp only [dig_or_walk]
    split
    · rename_i p hn
      split
      · exact PlayerOK_pose (dig_pose game p) hok
      · exact hok
    · exact hok

theorem update_cmd_ok (game : Game) (command : Command)
    (hok : PlayerOK game.player) : PlayerOK (update_cmd game command).player := by
  simp only [update_cmd]
  have hcase : ∀ g2 : Game, PlayerOK g2.player →
      PlayerOK (if g2.is_clear ∧ command ≠ Command.None then g2
        else update_tail g2).player := by
    intro g2 h2
    split
    · exact h2
    · exact PlayerOK_pose (update_tail_pose g2) h2
  cases command with
  | None => exact hcase game hok
  | Left => exact hcase _ (dig_or_walk_ok _ _ hok)
  | Right => exact hcase _ (dig_or_walk_ok _ _ hok)
  | Up => exact hcase _ (dig_or_walk_ok _ _ hok)
  | Down => exact hcase _ (dig_or_walk_ok _ _ hok)

theorem update_ok (game : Game) (command : Command)
    (hok : PlayerOK game.player) : PlayerOK (update game command).player := by
  simp only [update]
  split
  · exact hok
  · simp only [update_mid]
    refine update_cmd_ok _ _ ?_
    exact player_move_ok { game with frame := game.frame + 1 } hok

/-- **C10**: in every game state reachable from a new game by any sequence
of `update` calls, the player's position stays within the grid bounds.  The
proof maintains the stronger invariant `PlayerOK`: the player is in bounds,
a walk in progress was started toward an existing neighbor (so its target
column is in bounds), and a fall in progress was started over an existing
downward neighbor (so its target row is in bounds). -/
theorem c10_player_in_bounds (s : Game) (h : Reachable s) :
    s.player.p.inBounds := by
  have hok : PlayerOK s.player := by
    induction h with
    | init cells =>
      exact ⟨show Player.new.p.inBounds by decide,
        fun hw => by simp [Game.new, Player.new] at hw,
        fun hf => by simp [Game.new, Player.new] at hf⟩
    | step game command hr ih => exact update_ok game command ih
  exact hok.1

/-- Witness for C10: the initial state of a new game on an empty grid is
reachable and its player is in bounds. -/
theorem c10_player_in_bounds_witness :
    (Game.new (fun _ => Cell.new)).player.p.inBounds :=
  c10_player_in_bounds _ (Reachable.init _)

end Driller
